import Mathlib

/-!
# MicroKambam front end — board transforms, formalised

A shallow embedding of `src/utils/helpers.ts` and
`src/hooks/useDragAndDrop.ts` from the MicroKambam front end.

Modelling conventions, chosen to stay faithful to the JavaScript runtime:

* A JS array of cards (`Card[]`) is a `List (Option Card)`: a slot is
  `some c` for a card object and `none` for the value `undefined`, which
  `Array.prototype.splice` can insert when asked to remove past the end
  of the array (`const [card] = arr.splice(i, 1)` destructures to
  `undefined` when nothing was removed, and `arr.splice(j, 0, card)`
  then inserts that `undefined`).  Likewise `Column[]` is
  `List (Option Column)`.
* A scan such as `arr.find(c => c.id === x)` applies its callback to
  every slot it visits; on an `undefined` slot the property access
  `c.id` throws a `TypeError`.  Scans therefore return `Option r`,
  where `none` models the thrown exception and `some r` the normal
  JS return value.  Operations built on such scans return
  `Option Board` the same way.
* `Date` values are modelled as `Nat` (epoch milliseconds); the single
  call site of `new Date()` inside `moveCard` receives the current
  clock as an explicit `now : Nat` parameter.
* TS `number` indices are modelled as `Int` (all call sites pass
  integers); `splice`'s ECMA-262 index clamping is `actualIndex`.
* Object identity is not represented: two structurally equal slots are
  independent.  The application never aliases one column or card object
  into two slots, so this loses nothing on reachable boards.
-/

/-- `Card` from `src/types/index.ts` (dates as epoch milliseconds). -/
structure Card where
  id : String
  title : String
  description : Option String := none
  color : Option String := none
  createdAt : Option Nat := none
  updatedAt : Option Nat := none
  deriving DecidableEq

/-- `Column` from `src/types/index.ts`; `cards` is a JS array whose
slots may hold `undefined` (see module conventions). -/
structure Column where
  id : String
  title : String
  cards : List (Option Card)
  color : Option String := none
  limit : Option Int := none
  deriving DecidableEq

/-- `Board` from `src/types/index.ts`. -/
structure Board where
  id : String
  title : String
  columns : List (Option Column)
  createdAt : Option Nat := none
  updatedAt : Option Nat := none
  deriving DecidableEq

/-- ECMA-262 `ToActualIndex` used by `Array.prototype.splice`:
a negative start counts from the end clamped at `0`, a start past the
end clamps to the length. -/
def actualIndex (len : Nat) (i : Int) : Nat :=
  if i < 0 then ((len : Int) + i).toNat else min i.toNat len

/-- `const [x] = arr.splice(i, 1)` on a slot array: returns the
destructured `x` (the removed slot's value, or `undefined` when the
clamped start is past the last element and nothing is removed) together
with the array contents after the call. -/
def jsSpliceOut (l : List (Option α)) (i : Int) : Option α × List (Option α) :=
  let s := actualIndex l.length i
  ((l[s]?).join, l.take s ++ l.drop (s + 1))

/-- `arr.splice(i, 0, a)` on a slot array: inserts the value `a`
(possibly `undefined`) at the clamped start position. -/
def jsSpliceIns (l : List (Option α)) (i : Int) (a : Option α) : List (Option α) :=
  let s := actualIndex l.length i
  l.take s ++ a :: l.drop s

/-- `arr.find(x => p(x))` where the callback dereferences its argument:
`none` models the `TypeError` thrown on an `undefined` slot,
`some none` the JS return value `undefined` (no match),
`some (some a)` the first matching element. -/
def jsFindP (l : List (Option α)) (p : α → Bool) : Option (Option α) :=
  match l with
  | [] => some none
  | none :: _ => none
  | some a :: rest => if p a then some (some a) else jsFindP rest p

/-- Helper for `jsFindIndexP`, carrying the index of the head slot. -/
def jsFindIndexFrom (l : List (Option α)) (p : α → Bool) (k : Nat) : Option Int :=
  match l with
  | [] => some (-1)
  | none :: _ => none
  | some a :: rest => if p a then some (k : Int) else jsFindIndexFrom rest p (k + 1)

/-- `arr.findIndex(x => p(x))` where the callback dereferences its
argument: `none` models the `TypeError` on an `undefined` slot,
`some (-1)` no match, `some i` the first matching position. -/
def jsFindIndexP (l : List (Option α)) (p : α → Bool) : Option Int :=
  jsFindIndexFrom l p 0

/-- Value-level rendering of the in-place mutation `helpers.ts` performs
on the column object that `columns.find(col => col.id === cid)` located:
the first slot holding a column with id `cid` is replaced by `f` of it,
every other slot is kept.  (The mutation is only reached after the
`find` succeeded, so no `none` slot precedes the first match there;
this function skips `none` slots with the same effect.) -/
def updateColById (cols : List (Option Column)) (cid : String) (f : Column → Column) :
    List (Option Column) :=
  match cols with
  | [] => []
  | none :: rest => none :: updateColById rest cid f
  | some col :: rest =>
    if col.id = cid then some (f col) :: rest
    else some col :: updateColById rest cid f

/-- `findColumnById` from `src/utils/helpers.ts`. -/
def findColumnById (board : Board) (columnId : String) : Option (Option Column) :=
  jsFindP board.columns (fun col => col.id = columnId)

/-- One step of `findCardById`'s `for (const column of board.columns)`
loop: an `undefined` column slot makes `column.cards` throw (`none`);
otherwise the inner `find` runs on the column's cards. -/
def findCardInCols (cols : List (Option Column)) (cardId : String) :
    Option (Option (Card × String)) :=
  match cols with
  | [] => some none
  | none :: _ => none
  | some col :: rest =>
    match jsFindP col.cards (fun c => c.id = cardId) with
    | none => none
    | some (some c) => some (some (c, col.id))
    | some none => findCardInCols rest cardId

/-- `findCardById` from `src/utils/helpers.ts`: the card together with
the id of the column that holds it, or `undefined`. -/
def findCardById (board : Board) (cardId : String) : Option (Option (Card × String)) :=
  findCardInCols board.columns cardId

/-- `moveCard` from `src/utils/helpers.ts`.

The source's `const newBoard = { ...board }` copies only the top level:
`newBoard.columns` is the same array object as `board.columns`, and both
splices mutate the column objects' `cards` arrays in place.  The value
produced below is the value of that shared structure after the call,
repackaged under the copied top level.  Aliasing is rendered by
sequencing: the removal is applied to the first column whose id is
`sourceColumnId`, then the insertion reads the *current* cards of the
first column whose id is `targetColumnId`, so a same-column move sees
the cards with the card already removed, exactly as the shared JS
object does.  `card.updatedAt = new Date()` on an `undefined`
destructured value would throw, hence the `none` branch. -/
def moveCard (now : Nat) (board : Board) (cardId sourceColumnId targetColumnId : String)
    (targetIndex : Option Int) : Option Board :=
  match jsFindP board.columns (fun col => col.id = sourceColumnId) with
  | none => none
  | some sourceCol? =>
    match jsFindP board.columns (fun col => col.id = targetColumnId) with
    | none => none
    | some targetCol? =>
      match sourceCol?, targetCol? with
      | some sourceColumn, some _ =>
        match jsFindIndexP sourceColumn.cards (fun c => c.id = cardId) with
        | none => none
        | some cardIndex =>
          if cardIndex = -1 then some board
          else
            match jsSpliceOut sourceColumn.cards cardIndex with
            | (none, _) => none
            | (some card, newSourceCards) =>
              let movedCard := { card with updatedAt := some now }
              let colsAfterRemove :=
                updateColById board.columns sourceColumnId
                  (fun col => { col with cards := newSourceCards })
              let colsAfterInsert :=
                updateColById colsAfterRemove targetColumnId
                  (fun col =>
                    { col with
                      cards :=
                        match targetIndex with
                        | some ti => jsSpliceIns col.cards ti (some movedCard)
                        | none => col.cards ++ [some movedCard] })
              some { board with columns := colsAfterInsert }
      | _, _ => some board

/-- `reorderCards` from `src/utils/helpers.ts`.  Note the absence of any
index guard: the splice pair runs for every `sourceIndex ≠ targetIndex`
once the column is found, and an out-of-range `sourceIndex` makes
`jsSpliceOut` remove nothing and hand back `undefined`, which the second
splice then inserts. -/
def reorderCards (board : Board) (columnId : String) (sourceIndex targetIndex : Int) :
    Option Board :=
  match jsFindP board.columns (fun col => col.id = columnId) with
  | none => none
  | some none => some board
  | some (some column) =>
    if sourceIndex = targetIndex then some board
    else
      match jsSpliceOut column.cards sourceIndex with
      | (removedSlot, rest) =>
        let newCards := jsSpliceIns rest targetIndex removedSlot
        some { board with
                columns := updateColById board.columns columnId
                  (fun col => { col with cards := newCards }) }

/-- `reorderColumns` from `src/utils/helpers.ts`: same splice pair as
`reorderCards`, on the board's columns array, with no lookup and hence
no way to throw. -/
def reorderColumns (board : Board) (sourceIndex targetIndex : Int) : Board :=
  if sourceIndex = targetIndex then board
  else
    match jsSpliceOut board.columns sourceIndex with
    | (removedSlot, rest) =>
      { board with columns := jsSpliceIns rest targetIndex removedSlot }

/-- Value of the caller's `board` argument after `moveCard` returns.

`{ ...board }` copies only the top level, so the `columns` array and
every column and card object stay shared with the argument, and every
update `moveCard` performs is an in-place `splice` or field assignment
on that shared structure.  Hence after a call that returns normally the
argument's value coincides with the returned value, and on the
early-return paths (missing column, missing card) nothing has been
mutated yet and the function returned the argument itself.  The only
throwing paths are the two `find`s and the `findIndex`, all of which run
before the first mutation, so on a throw the argument is also untouched.
(The `(none, _)` branch after the removal splice is unreachable:
`findIndex` only returns a non-negative index for a defined slot.) -/
def moveCardArgAfter (now : Nat) (board : Board)
    (cardId sourceColumnId targetColumnId : String) (targetIndex : Option Int) : Board :=
  (moveCard now board cardId sourceColumnId targetColumnId targetIndex).getD board

/-- Value of the caller's `board` argument after `reorderCards` returns:
as with `moveCard`, the spread copies only the top level and both
splices mutate the shared column object, and the single throwing path
(the `find`) precedes any mutation. -/
def reorderCardsArgAfter (board : Board) (columnId : String)
    (sourceIndex targetIndex : Int) : Board :=
  (reorderCards board columnId sourceIndex targetIndex).getD board

/-- Value of the caller's `board` argument after `reorderColumns`
returns: `newBoard.columns` *is* `board.columns`, and both splices
restructure that shared array in place. -/
def reorderColumnsArgAfter (board : Board) (sourceIndex targetIndex : Int) : Board :=
  reorderColumns board sourceIndex targetIndex

/-- The ids of the (defined) cards of a card slot array, in order. -/
def cardSlotIds (cards : List (Option Card)) : List String :=
  cards.filterMap (fun s => s.map Card.id)

/-- All (defined) card ids of a column slot array, column by column. -/
def colsCardIds (cols : List (Option Column)) : List String :=
  cols.flatMap (fun s =>
    match s with
    | none => []
    | some col => cardSlotIds col.cards)

/-- The ids of the (defined) columns of a column slot array, in order. -/
def colsColIds (cols : List (Option Column)) : List String :=
  cols.filterMap (fun s => s.map Column.id)

/-- All (defined) card ids on the board, column by column. -/
def Board.cardIds (b : Board) : List String :=
  colsCardIds b.columns

/-- The ids of the (defined) columns of the board, in order. -/
def Board.colIds (b : Board) : List String :=
  colsColIds b.columns

/-- All card slots of a column slot array, column by column. -/
def colsCardSlots (cols : List (Option Column)) : List (Option Card) :=
  cols.flatMap (fun s =>
    match s with
    | none => []
    | some col => col.cards)

/-- All card slots on the board, column by column (used to talk about
card *values*, e.g. timestamps, rather than ids). -/
def Board.cardSlots (b : Board) : List (Option Card) :=
  colsCardSlots b.columns

/-- Every slot of a column array is a real object with real cards. -/
def colsSlotsOK (cols : List (Option Column)) : Bool :=
  cols.all (fun s =>
    match s with
    | none => false
    | some col => col.cards.all (fun c => c.isSome))

/-- Every slot of the board is a real object (no `undefined` column or
card), i.e. the board inhabits the declared TS types. -/
def Board.slotsOK (b : Board) : Bool :=
  colsSlotsOK b.columns

/-! ## The drag-and-drop hook, `src/hooks/useDragAndDrop.ts`

`handleDragOver` and `handleDragEnd` read `active.data.current` /
`over.data.current` (`undefined` or a payload tagged `'card'` /
`'column'`), and `active.id` / `over.id`.  `onUpdateBoard` is modelled
by returning the board passed to it; `setActiveCard` / `setActiveColumn`
by returning the written state.  As for the helpers, an outer `none`
models a thrown `TypeError`. -/

/-- The `data.current` payload of a drag entity. -/
inductive DragPayload
  | card (c : Card)
  | column (col : Column)
  deriving DecidableEq

/-- One endpoint (`active` or `over`) of a drag event. -/
structure DragItem where
  id : String
  data : Option DragPayload
  deriving DecidableEq

/-- A `DragOverEvent` / `DragEndEvent`: `over` is `none` when the drag
ended outside every droppable surface. -/
structure DragEvent where
  active : DragItem
  over : Option DragItem
  deriving DecidableEq

/-- `handleDragOver` from `src/hooks/useDragAndDrop.ts`.

Result: `none` = a `TypeError` was thrown; `some none` = the handler
returned without calling `onUpdateBoard`; `some (some b')` = the handler
published `b'` through `onUpdateBoard`.  The only publishing path is a
card dragged over a column (`overData?.type === 'column'`) other than
the one `findCardById` currently locates it in, in which case the
published board is `moveCard` without a target index. -/
def handleDragOver (now : Nat) (board : Board) (ev : DragEvent) : Option (Option Board) :=
  match ev.over with
  | none => some none
  | some over =>
    match ev.active.data, over.data with
    | some (.card activeCard), some (.column _) =>
      match findCardById board activeCard.id with
      | none => none
      | some none => some none
      | some (some (_, colId)) =>
        if colId ≠ over.id then
          (moveCard now board activeCard.id colId over.id none).map some
        else some none
    | _, _ => some none

/-- The board-publishing part of `handleDragEnd` (everything after the
two `setActive…(null)` calls).  Result convention as `handleDragOver`. -/
def handleDragEndPublish (now : Nat) (board : Board) (ev : DragEvent) :
    Option (Option Board) :=
  match ev.over with
  | none => some none
  | some over =>
    match ev.active.data with
    | some (.card activeCard) =>
      match findCardById board activeCard.id with
      | none => none
      | some none => some none
      | some (some (_, locColId)) =>
        match findColumnById board locColId with
        | none => none
        | some none => some none
        | some (some activeColumn) =>
          match over.data with
          | some (.column _) =>
            match findColumnById board over.id with
            | none => none
            | some none => some none
            | some (some overColumn) =>
              if activeColumn.id ≠ overColumn.id then
                (moveCard now board activeCard.id activeColumn.id overColumn.id none).map some
              else some none
          | some (.card overCard) =>
            match findCardById board overCard.id with
            | none => none
            | some none => some none
            | some (some (_, overLocColId)) =>
              match findColumnById board overLocColId with
              | none => none
              | some none => some none
              | some (some overColumn) =>
                if activeColumn.id = overColumn.id then
                  match jsFindIndexP activeColumn.cards (fun c => c.id = activeCard.id) with
                  | none => none
                  | some activeIndex =>
                    match jsFindIndexP overColumn.cards (fun c => c.id = overCard.id) with
                    | none => none
                    | some overIndex =>
                      if activeIndex ≠ overIndex then
                        (reorderCards board activeColumn.id activeIndex overIndex).map some
                      else some none
                else
                  match jsFindIndexP overColumn.cards (fun c => c.id = overCard.id) with
                  | none => none
                  | some overIndex =>
                    (moveCard now board activeCard.id activeColumn.id overColumn.id
                      (some overIndex)).map some
          | none => some none
    | some (.column _) =>
      match over.data with
      | some (.column _) =>
        match jsFindIndexP board.columns (fun col => col.id = ev.active.id) with
        | none => none
        | some activeIndex =>
          match jsFindIndexP board.columns (fun col => col.id = over.id) with
          | none => none
          | some overIndex =>
            if activeIndex ≠ overIndex ∧ activeIndex ≠ -1 ∧ overIndex ≠ -1 then
              some (some (reorderColumns board activeIndex overIndex))
            else some none
      | _ => some none
    | none => some none

/-- `handleDragEnd` from `src/hooks/useDragAndDrop.ts`: it first writes
`setActiveCard(null); setActiveColumn(null)` — the returned pair's first
component is that written drag state — and then runs the publishing
logic.  The state write precedes every return and every throwing call,
so it is the first component unconditionally. -/
def handleDragEnd (now : Nat) (board : Board) (ev : DragEvent) :
    (Option Card × Option Column) × Option (Option Board) :=
  ((none, none), handleDragEndPublish now board ev)

/-! ## Operation sequences (for the identifier-uniqueness invariant) -/

/-- One call to a board transform of `helpers.ts`. -/
inductive Op
  | move (now : Nat) (cardId sourceColumnId targetColumnId : String) (targetIndex : Option Int)
  | reorderC (columnId : String) (sourceIndex targetIndex : Int)
  | reorderCol (sourceIndex targetIndex : Int)

/-- Apply one transform call; `none` models a thrown `TypeError`. -/
def applyOp (b : Board) : Op → Option Board
  | .move now cardId src tgt ti => moveCard now b cardId src tgt ti
  | .reorderC cid s t => reorderCards b cid s t
  | .reorderCol s t => some (reorderColumns b s t)

/-- Apply a sequence of transform calls, stopping on a throw. -/
def runOps (b : Board) : List Op → Option Board
  | [] => some b
  | op :: ops =>
    match applyOp b op with
    | none => none
    | some b' => runOps b' ops

/-- The card-removal update `moveCard` applies to the source column
(proof-layer abbreviation for the first in-place splice). -/
def removeUpd (cards0 : List (Option Card)) (n : Nat) : Column → Column :=
  fun col => { col with cards := cards0.take n ++ cards0.drop (n + 1) }

/-- The card-insertion update `moveCard` applies to the target column
(proof-layer abbreviation for the second in-place splice / push). -/
def insertUpd (now : Nat) (a : Card) (ti : Option Int) : Column → Column :=
  fun col =>
    { col with cards :=
        match ti with
        | some t => jsSpliceIns col.cards t (some { a with updatedAt := some now })
        | none => col.cards ++ [some { a with updatedAt := some now }] }

/-- The columns of the board `moveCard` returns on its success path. -/
def movedColumns (now : Nat) (cols : List (Option Column)) (src tgt : String)
    (cards0 : List (Option Card)) (n : Nat) (a : Card) (ti : Option Int) :
    List (Option Column) :=
  updateColById (updateColById cols src (removeUpd cards0 n)) tgt (insertUpd now a ti)

/-- The splice pair `reorderCards` applies to the addressed column
(proof-layer abbreviation for the two in-place splices). -/
def reorderUpd (cards0 : List (Option Card)) (s t : Int) : Column → Column :=
  fun col =>
    { col with cards := jsSpliceIns (jsSpliceOut cards0 s).2 t (jsSpliceOut cards0 s).1 }

/-- Replace a column's cards (proof-layer abbreviation used to state
results about single columns). -/
def withCards (col : Column) (cs : List (Option Card)) : Column :=
  { col with cards := cs }

/-- A drag event whose active entity is the card `cDrag` and whose
surface under the pointer is the column with id `overId` (payload
`colP`), as `useDragAndDrop` receives it for card-over-column. -/
def mkOverColumnEvent (aid : String) (cDrag : Card) (overId : String) (colP : Column) :
    DragEvent :=
  { active := { id := aid, data := some (.card cDrag) },
    over := some { id := overId, data := some (.column colP) } }

/-! ## Concrete fixtures used by witnesses and counterexamples -/

/-- A minimal card with the given id. -/
def sampleCard (i : String) : Card := { id := i, title := i }

/-- Column `"A"` holding `c1, c2, c3`. -/
def colA3 : Column :=
  { id := "A", title := "To Do",
    cards := [some (sampleCard "c1"), some (sampleCard "c2"), some (sampleCard "c3")] }

/-- Column `"B"` holding the single card `x`. -/
def colB1 : Column := { id := "B", title := "B", cards := [some (sampleCard "x")] }

/-- A two-column board: `A = [c1, c2, c3]`, `B = [x]`. -/
def bAB : Board := { id := "b", title := "b", columns := [some colA3, some colB1] }

/-- A one-column board: `A = [c1]`. -/
def bA1 : Board :=
  { id := "b1", title := "b1",
    columns := [some { id := "A", title := "A", cards := [some (sampleCard "c1")] }] }

/-- The malformed board `reorderCards bA1 "A" 5 0` produces: the
out-of-range removal splice removed nothing and handed back `undefined`,
which the insertion splice put in front of `c1`. -/
def bA1bad : Board :=
  { id := "b1", title := "b1",
    columns := [some { id := "A", title := "A", cards := [none, some (sampleCard "c1")] }] }

/-- Card `c1` as `moveCard` re-stamps it at clock `7`. -/
def cardC1moved : Card := { id := "c1", title := "c1", updatedAt := some 7 }

/-- What `moveCard 7 bAB "c1" "A" "B" (some (-1))` actually produces:
the negative index clamps to `length + (-1) = 0`, so `c1` lands *in
front of* `x`. -/
def bC5clamp : Board :=
  { id := "b", title := "b",
    columns := [some (withCards colA3 [some (sampleCard "c2"), some (sampleCard "c3")]),
      some (withCards colB1 [some cardC1moved, some (sampleCard "x")])] }

/-- The board the claim predicts for the same call (append at end). -/
def bC5append : Board :=
  { id := "b", title := "b",
    columns := [some (withCards colA3 [some (sampleCard "c2"), some (sampleCard "c3")]),
      some (withCards colB1 [some (sampleCard "x"), some cardC1moved])] }

/-- A no-op sequence of transform calls exercising all three operations. -/
def opsW : List Op :=
  [.move 9 "zz" "A" "B" none, .reorderC "A" 0 1, .reorderC "A" 1 0,
   .reorderCol 0 1, .reorderCol 1 0]

/-! ## Basic lemmas about the splice and scan embeddings -/

theorem take_cons_drop_perm (s : Nat) (l : List α) (a : α) :
    (l.take s ++ a :: l.drop s).Perm (a :: l) := by
  induction l generalizing s with
  | nil => simp
  | cons x xs ih =>
    cases s with
    | zero => simp
    | succ s =>
      simp only [List.take_succ_cons, List.drop_succ_cons, List.cons_append]
      exact ((ih s).cons x).trans (List.Perm.swap a x xs)

theorem take_drop_succ_of_le {l : List α} {s : Nat} (h : l.length ≤ s) :
    l.take s ++ l.drop (s + 1) = l := by
  rw [List.take_of_length_le h, List.drop_eq_nil_of_le (Nat.le_succ_of_le h), List.append_nil]

theorem eq_take_cons_drop_of_getElem? {l : List α} {n : Nat} {x : α} (h : l[n]? = some x) :
    l = l.take n ++ x :: l.drop (n + 1) := by
  induction l generalizing n with
  | nil => simp at h
  | cons y ys ih =>
    cases n with
    | zero => simp_all
    | succ n =>
      simp only [List.getElem?_cons_succ] at h
      simpa only [List.take_succ_cons, List.drop_succ_cons, List.cons_append, List.cons.injEq,
        true_and] using ih h

theorem actualIndex_coe_of_lt {len n : Nat} (h : n < len) :
    actualIndex len (n : Int) = n := by
  simp [actualIndex, Nat.le_of_lt h]

theorem actualIndex_le (len : Nat) (i : Int) : actualIndex len i ≤ len := by
  unfold actualIndex
  split
  · omega
  · omega

theorem jsSpliceOut_of_getElem? {l : List (Option α)} {n : Nat} {x : Option α}
    (h : l[n]? = some x) :
    jsSpliceOut l (n : Int) = (x, l.take n ++ l.drop (n + 1)) := by
  have hlt : n < l.length := (List.getElem?_eq_some_iff.mp h).1
  simp [jsSpliceOut, actualIndex_coe_of_lt hlt, h]

theorem jsSpliceOut_cases (l : List (Option α)) (i : Int) :
    ((jsSpliceOut l i).1 :: (jsSpliceOut l i).2).Perm l ∨
      ((jsSpliceOut l i).1 = none ∧ (jsSpliceOut l i).2 = l) := by
  cases hget : l[actualIndex l.length i]? with
  | none =>
    right
    have hle : l.length ≤ actualIndex l.length i := List.getElem?_eq_none_iff.mp hget
    simp [jsSpliceOut, hget, take_drop_succ_of_le hle]
  | some x =>
    left
    have hdec := eq_take_cons_drop_of_getElem? hget
    simp only [jsSpliceOut, hget]
    simp only [Option.join]
    conv => rhs; rw [hdec]
    exact List.perm_middle.symm

theorem jsSpliceIns_perm (l : List (Option α)) (i : Int) (a : Option α) :
    (jsSpliceIns l i a).Perm (a :: l) :=
  take_cons_drop_perm (actualIndex l.length i) l a

theorem perm_flatMap (g : α → List β) {l₁ l₂ : List α} (h : l₁.Perm l₂) :
    (l₁.flatMap g).Perm (l₂.flatMap g) := by
  rw [List.flatMap_def, List.flatMap_def]
  exact (h.map g).flatten

/-! ## Lemmas about `jsFindP` / `jsFindIndexP` -/

theorem jsFindP_some_some {l : List (Option α)} {p : α → Bool} {a : α}
    (h : jsFindP l p = some (some a)) :
    p a = true ∧ ∃ l₁ l₂, l = l₁ ++ some a :: l₂ ∧
      ∀ s ∈ l₁, ∃ b, s = some b ∧ p b = false := by
  induction l with
  | nil => simp [jsFindP] at h
  | cons s rest ih =>
    cases s with
    | none => simp [jsFindP] at h
    | some b =>
      by_cases hp : p b
      · simp only [jsFindP, hp, if_true, Option.some.injEq, Option.some_inj] at h
        cases h
        exact ⟨hp, [], rest, rfl, by simp⟩
      · simp only [jsFindP] at h
        rw [if_neg hp] at h
        obtain ⟨hpa, l₁, l₂, hdec, hpre⟩ := ih h
        refine ⟨hpa, some b :: l₁, l₂, by simp [hdec], ?_⟩
        intro s hs
        rcases List.mem_cons.mp hs with h1 | h1
        · exact ⟨b, h1, by simpa using hp⟩
        · exact hpre s h1

theorem jsFindP_of_no_match {l : List (Option α)} {p : α → Bool}
    (h : ∀ s ∈ l, ∃ b, s = some b ∧ p b = false) :
    jsFindP l p = some none := by
  induction l with
  | nil => rfl
  | cons s rest ih =>
    obtain ⟨b, rfl, hb⟩ := h s (List.mem_cons_self s rest)
    simp only [jsFindP]
    rw [if_neg (by simp [hb])]
    exact ih fun s hs => h s (List.mem_cons_of_mem _ hs)

theorem jsFindP_some_none {l : List (Option α)} {p : α → Bool}
    (h : jsFindP l p = some none) :
    ∀ s ∈ l, ∃ b, s = some b ∧ p b = false := by
  induction l with
  | nil => simp
  | cons s rest ih =>
    cases s with
    | none => simp [jsFindP] at h
    | some b =>
      by_cases hp : p b
      · simp [jsFindP, hp] at h
      · simp only [jsFindP] at h
        rw [if_neg hp] at h
        intro s hs
        rcases List.mem_cons.mp hs with h1 | h1
        · exact ⟨b, h1, by simpa using hp⟩
        · exact ih h s h1

theorem jsFindP_append_no_match {l₁ l₂ : List (Option α)} {p : α → Bool}
    (h : ∀ s ∈ l₁, ∃ b, s = some b ∧ p b = false) :
    jsFindP (l₁ ++ l₂) p = jsFindP l₂ p := by
  induction l₁ with
  | nil => rfl
  | cons s rest ih =>
    obtain ⟨b, rfl, hb⟩ := h s (List.mem_cons_self s rest)
    simp only [List.cons_append, jsFindP]
    rw [if_neg (by simp [hb])]
    exact ih fun s hs => h s (List.mem_cons_of_mem _ hs)

theorem jsFindIndexFrom_spec {l : List (Option α)} {p : α → Bool} {k : Nat} {i : Int}
    (h : jsFindIndexFrom l p k = some i) :
    i = -1 ∨ ∃ n : Nat, i = (k : Int) + n ∧ ∃ a, l[n]? = some (some a) ∧ p a = true := by
  induction l generalizing k with
  | nil =>
    left
    simpa [jsFindIndexFrom] using h.symm
  | cons s rest ih =>
    cases s with
    | none => simp [jsFindIndexFrom] at h
    | some a =>
      by_cases hp : p a
      · right
        simp only [jsFindIndexFrom, hp, if_true, Option.some_inj] at h
        exact ⟨0, by omega, a, by simp, hp⟩
      · simp only [jsFindIndexFrom] at h
        rw [if_neg hp] at h
        rcases ih h with h1 | ⟨n, hn, a', hget, hpa⟩
        · exact Or.inl h1
        · exact Or.inr ⟨n + 1, by omega, a', by simpa using hget, hpa⟩

theorem jsFindIndexP_spec {l : List (Option α)} {p : α → Bool} {i : Int}
    (h : jsFindIndexP l p = some i) (hne : i ≠ -1) :
    ∃ n : Nat, i = (n : Int) ∧ ∃ a, l[n]? = some (some a) ∧ p a = true := by
  rcases jsFindIndexFrom_spec h with h1 | ⟨n, hn, a, hget, hpa⟩
  · exact absurd h1 hne
  · exact ⟨n, by omega, a, hget, hpa⟩

theorem jsFindIndexFrom_of_no_match {l : List (Option α)} {p : α → Bool}
    (h : ∀ s ∈ l, ∃ b, s = some b ∧ p b = false) (k : Nat) :
    jsFindIndexFrom l p k = some (-1) := by
  induction l generalizing k with
  | nil => rfl
  | cons s rest ih =>
    obtain ⟨b, rfl, hb⟩ := h s (List.mem_cons_self s rest)
    simp only [jsFindIndexFrom]
    rw [if_neg (by simp [hb])]
    exact ih (fun s hs => h s (List.mem_cons_of_mem _ hs)) (k + 1)

theorem jsFindIndexFrom_append_match {l : List (Option α)} {p : α → Bool} {a : α}
    (h : ∀ s ∈ l, ∃ b, s = some b ∧ p b = false) (hpa : p a = true) (k : Nat) :
    jsFindIndexFrom (l ++ [some a]) p k = some ((k : Int) + l.length) := by
  induction l generalizing k with
  | nil => simp [jsFindIndexFrom, hpa]
  | cons s rest ih =>
    obtain ⟨b, rfl, hb⟩ := h s (List.mem_cons_self s rest)
    simp only [List.cons_append, jsFindIndexFrom]
    rw [if_neg (by simp [hb])]
    simp only [List.append_eq]
    rw [ih (fun s hs => h s (List.mem_cons_of_mem _ hs)) (k + 1)]
    congr 1
    simp only [List.length_cons]
    omega

/-! ## Lemmas about `updateColById` -/

theorem updateColById_append_no_match {l₁ l₂ : List (Option Column)} {cid : String}
    {f : Column → Column} (h : ∀ c, some c ∈ l₁ → ¬c.id = cid) :
    updateColById (l₁ ++ l₂) cid f = l₁ ++ updateColById l₂ cid f := by
  induction l₁ with
  | nil => rfl
  | cons s rest ih =>
    cases s with
    | none =>
      simp only [List.cons_append, updateColById, List.cons.injEq, true_and]
      exact ih fun c hc => h c (List.mem_cons_of_mem _ hc)
    | some col =>
      simp only [List.cons_append, updateColById]
      rw [if_neg (h col (List.mem_cons_self _ _))]
      simp only [List.cons.injEq, true_and]
      exact ih fun c hc => h c (List.mem_cons_of_mem _ hc)

theorem updateColById_cons_match {col : Column} {cid : String} {f : Column → Column}
    {l : List (Option Column)} (h : col.id = cid) :
    updateColById (some col :: l) cid f = some (f col) :: l := by
  simp [updateColById, h]

theorem jsFindP_updateColById_of_ne {cols : List (Option Column)} {cid cid' : String}
    {f : Column → Column} (hid : ∀ col, (f col).id = col.id) (hne : cid' ≠ cid) :
    jsFindP (updateColById cols cid f) (fun c => c.id = cid') =
      jsFindP cols (fun c => c.id = cid') := by
  induction cols with
  | nil => rfl
  | cons s rest ih =>
    cases s with
    | none => simp [updateColById, jsFindP]
    | some col =>
      by_cases hc : col.id = cid
      · rw [updateColById_cons_match hc]
        simp only [jsFindP, hid]
        rw [if_neg (by simp [hc]; exact Ne.symm hne), if_neg (by simp [hc]; exact Ne.symm hne)]
      · simp only [updateColById]
        rw [if_neg hc]
        simp only [jsFindP]
        by_cases hc' : col.id = cid'
        · rw [if_pos (by simp [hc']), if_pos (by simp [hc'])]
        · rw [if_neg (by simp [hc']), if_neg (by simp [hc'])]
          exact ih

theorem jsFindP_updateColById_self {cols : List (Option Column)} {cid : String}
    {f : Column → Column} {colF : Column} (hid : ∀ col, (f col).id = col.id)
    (h : jsFindP cols (fun c => c.id = cid) = some (some colF)) :
    jsFindP (updateColById cols cid f) (fun c => c.id = cid) = some (some (f colF)) := by
  induction cols with
  | nil => simp [jsFindP] at h
  | cons s rest ih =>
    cases s with
    | none => simp [jsFindP] at h
    | some col =>
      by_cases hc : col.id = cid
      · rw [updateColById_cons_match hc]
        have hcol : col = colF := by
          simp only [jsFindP] at h
          rw [if_pos (by simp [hc])] at h
          simpa using h
        subst hcol
        simp only [jsFindP]
        rw [if_pos (by simp [hid, hc])]
      · simp only [updateColById]
        rw [if_neg hc]
        simp only [jsFindP] at h ⊢
        rw [if_neg (by simp [hc])] at h ⊢
        exact ih h

theorem updateColById_length (cols : List (Option Column)) (cid : String)
    (f : Column → Column) : (updateColById cols cid f).length = cols.length := by
  induction cols with
  | nil => rfl
  | cons s rest ih =>
    cases s with
    | none => simpa [updateColById]
    | some col =>
      by_cases hc : col.id = cid
      · simp [updateColById, hc]
      · simp only [updateColById]
        rw [if_neg hc]
        simpa using ih

theorem updateColById_getElem? (cols : List (Option Column)) (cid : String)
    (f : Column → Column) (n : Nat) :
    (updateColById cols cid f)[n]? = cols[n]? ∨
      ∃ col, cols[n]? = some (some col) ∧ col.id = cid ∧
        (updateColById cols cid f)[n]? = some (some (f col)) := by
  induction cols generalizing n with
  | nil => left; rfl
  | cons s rest ih =>
    cases s with
    | none =>
      cases n with
      | zero => left; simp [updateColById]
      | succ n =>
        simp only [updateColById, List.getElem?_cons_succ]
        exact ih n
    | some col =>
      by_cases hc : col.id = cid
      · rw [updateColById_cons_match hc]
        cases n with
        | zero => right; exact ⟨col, by simp, hc, by simp⟩
        | succ n => left; simp
      · simp only [updateColById]
        rw [if_neg hc]
        cases n with
        | zero => left; simp
        | succ n =>
          simp only [List.getElem?_cons_succ]
          exact ih n

theorem colsColIds_updateColById {cols : List (Option Column)} {cid : String}
    {f : Column → Column} (hid : ∀ col, (f col).id = col.id) :
    colsColIds (updateColById cols cid f) = colsColIds cols := by
  induction cols with
  | nil => rfl
  | cons s rest ih =>
    cases s with
    | none => simpa [updateColById, colsColIds]
    | some col =>
      by_cases hc : col.id = cid
      · simp [updateColById, hc, colsColIds, hid]
      · simp only [updateColById]
        rw [if_neg hc]
        simp only [colsColIds, List.filterMap_cons] at ih ⊢
        simpa using ih

/-! ## Id bookkeeping -/

@[simp] theorem cardSlotIds_nil : cardSlotIds [] = [] := rfl

@[simp] theorem cardSlotIds_cons_none (l : List (Option Card)) :
    cardSlotIds (none :: l) = cardSlotIds l := rfl

@[simp] theorem cardSlotIds_cons_some (c : Card) (l : List (Option Card)) :
    cardSlotIds (some c :: l) = c.id :: cardSlotIds l := rfl

@[simp] theorem cardSlotIds_append (l₁ l₂ : List (Option Card)) :
    cardSlotIds (l₁ ++ l₂) = cardSlotIds l₁ ++ cardSlotIds l₂ :=
  List.filterMap_append l₁ l₂ _

@[simp] theorem colsCardIds_nil : colsCardIds [] = [] := rfl

@[simp] theorem colsCardIds_cons_none (l : List (Option Column)) :
    colsCardIds (none :: l) = colsCardIds l := by
  simp [colsCardIds]

@[simp] theorem colsCardIds_cons_some (col : Column) (l : List (Option Column)) :
    colsCardIds (some col :: l) = cardSlotIds col.cards ++ colsCardIds l := by
  simp [colsCardIds]

@[simp] theorem colsCardIds_append (l₁ l₂ : List (Option Column)) :
    colsCardIds (l₁ ++ l₂) = colsCardIds l₁ ++ colsCardIds l₂ :=
  List.flatMap_append l₁ l₂ _

@[simp] theorem colsColIds_nil : colsColIds [] = [] := rfl

@[simp] theorem colsColIds_cons_none (l : List (Option Column)) :
    colsColIds (none :: l) = colsColIds l := rfl

@[simp] theorem colsColIds_cons_some (col : Column) (l : List (Option Column)) :
    colsColIds (some col :: l) = col.id :: colsColIds l := rfl

@[simp] theorem colsColIds_append (l₁ l₂ : List (Option Column)) :
    colsColIds (l₁ ++ l₂) = colsColIds l₁ ++ colsColIds l₂ :=
  List.filterMap_append l₁ l₂ _

theorem cardSlotIds_perm_of_slot_perm {l₁ l₂ : List (Option Card)} (h : l₁.Perm l₂) :
    (cardSlotIds l₁).Perm (cardSlotIds l₂) :=
  List.Perm.filterMap _ h

theorem colsCardIds_perm_of_slot_perm {l₁ l₂ : List (Option Column)} (h : l₁.Perm l₂) :
    (colsCardIds l₁).Perm (colsCardIds l₂) :=
  perm_flatMap _ h

theorem colsColIds_perm_of_slot_perm {l₁ l₂ : List (Option Column)} (h : l₁.Perm l₂) :
    (colsColIds l₁).Perm (colsColIds l₂) :=
  List.Perm.filterMap _ h

theorem cardSlotIds_spliceOut_cons_perm (l : List (Option Card)) (i : Int) :
    (cardSlotIds ((jsSpliceOut l i).1 :: (jsSpliceOut l i).2)).Perm (cardSlotIds l) := by
  rcases jsSpliceOut_cases l i with h | ⟨h1, h2⟩
  · exact cardSlotIds_perm_of_slot_perm h
  · rw [h1, h2, cardSlotIds_cons_none]

theorem colsCardIds_spliceOut_cons_perm (l : List (Option Column)) (i : Int) :
    (colsCardIds ((jsSpliceOut l i).1 :: (jsSpliceOut l i).2)).Perm (colsCardIds l) := by
  rcases jsSpliceOut_cases l i with h | ⟨h1, h2⟩
  · exact colsCardIds_perm_of_slot_perm h
  · rw [h1, h2, colsCardIds_cons_none]

theorem colsColIds_spliceOut_cons_perm (l : List (Option Column)) (i : Int) :
    (colsColIds ((jsSpliceOut l i).1 :: (jsSpliceOut l i).2)).Perm (colsColIds l) := by
  rcases jsSpliceOut_cases l i with h | ⟨h1, h2⟩
  · exact colsColIds_perm_of_slot_perm h
  · rw [h1, h2, colsColIds_cons_none]

theorem colsCardIds_updateColById_of_find {cols : List (Option Column)} {cid : String}
    {colF : Column} (f : Column → Column)
    (h : jsFindP cols (fun c => c.id = cid) = some (some colF)) :
    ∃ X Y, colsCardIds cols = X ++ (cardSlotIds colF.cards ++ Y) ∧
      colsCardIds (updateColById cols cid f) = X ++ (cardSlotIds (f colF).cards ++ Y) := by
  obtain ⟨hp, l₁, l₂, hdec, hpre⟩ := jsFindP_some_some h
  have hids : ∀ c, some c ∈ l₁ → ¬c.id = cid := by
    intro c hc
    obtain ⟨b, hb, hpb⟩ := hpre _ hc
    cases hb
    simpa using hpb
  subst hdec
  rw [updateColById_append_no_match hids, updateColById_cons_match (by simpa using hp)]
  exact ⟨colsCardIds l₁, colsCardIds l₂, by simp, by simp⟩

/-! ## `moveCard`: success-path characterisation and id preservation -/

theorem moveCard_eq_of_found {b : Board} {cardId src tgt : String} {colS colT : Column}
    {n : Nat} {a : Card} (now : Nat) (ti : Option Int)
    (hS : jsFindP b.columns (fun col => col.id = src) = some (some colS))
    (hT : jsFindP b.columns (fun col => col.id = tgt) = some (some colT))
    (hidx : jsFindIndexP colS.cards (fun c => c.id = cardId) = some ((n : Nat) : Int))
    (hget : colS.cards[n]? = some (some a)) :
    moveCard now b cardId src tgt ti =
      some { b with columns := movedColumns now b.columns src tgt colS.cards n a ti } := by
  unfold moveCard movedColumns removeUpd insertUpd
  rw [hS, hT]
  simp only [hidx]
  rw [if_neg (by omega : ¬((n : Nat) : Int) = -1)]
  rw [jsSpliceOut_of_getElem? hget]

theorem moveCard_some_cases {now : Nat} {b : Board} {cardId src tgt : String}
    {ti : Option Int} {b' : Board}
    (h : moveCard now b cardId src tgt ti = some b') :
    b' = b ∨ ∃ (colS colT : Column) (n : Nat) (a : Card),
      jsFindP b.columns (fun col => col.id = src) = some (some colS) ∧
      jsFindP b.columns (fun col => col.id = tgt) = some (some colT) ∧
      jsFindIndexP colS.cards (fun c => c.id = cardId) = some ((n : Nat) : Int) ∧
      colS.cards[n]? = some (some a) ∧
      b' = { b with columns := movedColumns now b.columns src tgt colS.cards n a ti } := by
  unfold moveCard at h
  cases hS : jsFindP b.columns (fun col => col.id = src) with
  | none => rw [hS] at h; exact absurd h (by simp)
  | some s? =>
    rw [hS] at h
    cases hT : jsFindP b.columns (fun col => col.id = tgt) with
    | none => rw [hT] at h; exact absurd h (by simp)
    | some t? =>
      rw [hT] at h
      cases s? with
      | none =>
        cases t? with
        | none => dsimp only at h; left; exact (Option.some_inj.mp h).symm
        | some colT => dsimp only at h; left; exact (Option.some_inj.mp h).symm
      | some colS =>
        cases t? with
        | none => dsimp only at h; left; exact (Option.some_inj.mp h).symm
        | some colT =>
          dsimp only at h
          cases hidx : jsFindIndexP colS.cards (fun c => c.id = cardId) with
          | none => rw [hidx] at h; exact absurd h (by simp)
          | some i =>
            rw [hidx] at h
            dsimp only at h
            by_cases hi : i = -1
            · rw [if_pos hi] at h
              left; exact (Option.some_inj.mp h).symm
            · rw [if_neg hi] at h
              obtain ⟨n, rfl, a, hget, hpa⟩ := jsFindIndexP_spec hidx hi
              rw [jsSpliceOut_of_getElem? hget] at h
              dsimp only at h
              right
              refine ⟨colS, colT, n, a, rfl, rfl, hidx, hget, ?_⟩
              simp only [movedColumns, removeUpd, insertUpd]
              exact (Option.some_inj.mp h).symm

theorem append_middle_perm {X Y I R : List α} {x : α} (P : I.Perm (x :: R)) :
    (X ++ (I ++ Y)).Perm (x :: (X ++ (R ++ Y))) := by
  refine List.Perm.trans (List.Perm.append_left X (P.append_right Y)) ?_
  rw [List.cons_append]
  exact List.perm_middle

theorem insertUpd_ids_perm (now : Nat) (a : Card) (ti : Option Int) (col : Column) :
    (cardSlotIds ((insertUpd now a ti) col).cards).Perm (a.id :: cardSlotIds col.cards) := by
  cases ti with
  | none =>
    simp only [insertUpd, cardSlotIds_append, cardSlotIds_cons_some, cardSlotIds_nil]
    exact List.perm_append_comm
  | some t =>
    exact cardSlotIds_perm_of_slot_perm (jsSpliceIns_perm col.cards t _)

theorem removeUpd_ids_perm {cards0 : List (Option Card)} {n : Nat} {a : Card}
    (hget : cards0[n]? = some (some a)) (col : Column) :
    (cardSlotIds cards0).Perm (a.id :: cardSlotIds ((removeUpd cards0 n) col).cards) := by
  conv_lhs => rw [eq_take_cons_drop_of_getElem? hget]
  simp only [removeUpd, cardSlotIds_append, cardSlotIds_cons_some]
  exact List.perm_middle

theorem moveCard_some_ids {now : Nat} {b : Board} {cardId src tgt : String}
    {ti : Option Int} {b' : Board}
    (h : moveCard now b cardId src tgt ti = some b') :
    (Board.cardIds b').Perm (Board.cardIds b) ∧ Board.colIds b' = Board.colIds b := by
  rcases moveCard_some_cases h with rfl | ⟨colS, colT, n, a, hS, hT, hidx, hget, rfl⟩
  · exact ⟨List.Perm.refl _, rfl⟩
  · have hid1 : ∀ col, ((removeUpd colS.cards n) col).id = col.id := fun _ => rfl
    have hid2 : ∀ col, ((insertUpd now a ti) col).id = col.id := fun _ => rfl
    have hfind₁ : ∃ colF, jsFindP (updateColById b.columns src (removeUpd colS.cards n))
        (fun c => c.id = tgt) = some (some colF) := by
      by_cases hst : tgt = src
      · subst hst
        exact ⟨_, jsFindP_updateColById_self hid1 hT⟩
      · exact ⟨colT, (jsFindP_updateColById_of_ne hid1 hst).trans hT⟩
    obtain ⟨colF, hfind₁⟩ := hfind₁
    obtain ⟨X, Y, h1, h2⟩ := colsCardIds_updateColById_of_find (removeUpd colS.cards n) hS
    obtain ⟨X', Y', h3, h4⟩ := colsCardIds_updateColById_of_find (insertUpd now a ti) hfind₁
    constructor
    · show (colsCardIds (movedColumns now b.columns src tgt colS.cards n a ti)).Perm
        (colsCardIds b.columns)
      have step1 : (colsCardIds b.columns).Perm
          (a.id :: colsCardIds (updateColById b.columns src (removeUpd colS.cards n))) := by
        rw [h1, h2]
        exact append_middle_perm (removeUpd_ids_perm hget colS)
      have step2 : (colsCardIds (movedColumns now b.columns src tgt colS.cards n a ti)).Perm
          (a.id :: colsCardIds (updateColById b.columns src (removeUpd colS.cards n))) := by
        rw [movedColumns, h4, h3]
        exact append_middle_perm (insertUpd_ids_perm now a ti colF)
      exact step2.trans step1.symm
    · show colsColIds (movedColumns now b.columns src tgt colS.cards n a ti) =
        colsColIds b.columns
      rw [movedColumns, colsColIds_updateColById hid2, colsColIds_updateColById hid1]

/-! ## `reorderCards` / `reorderColumns`: characterisation and id preservation -/

theorem reorderCards_some_cases {b : Board} {cid : String} {s t : Int} {b' : Board}
    (h : reorderCards b cid s t = some b') :
    b' = b ∨ ∃ column,
      jsFindP b.columns (fun col => col.id = cid) = some (some column) ∧ s ≠ t ∧
      b' = { b with columns := updateColById b.columns cid (reorderUpd column.cards s t) } := by
  unfold reorderCards at h
  cases hF : jsFindP b.columns (fun col => col.id = cid) with
  | none => rw [hF] at h; exact absurd h (by simp)
  | some c? =>
    rw [hF] at h
    cases c? with
    | none => dsimp only at h; left; exact (Option.some_inj.mp h).symm
    | some column =>
      dsimp only at h
      by_cases hst : s = t
      · rw [if_pos hst] at h
        left; exact (Option.some_inj.mp h).symm
      · rw [if_neg hst] at h
        cases hsp : jsSpliceOut column.cards s with
        | mk removedSlot rest =>
          rw [hsp] at h
          dsimp only at h
          right
          refine ⟨column, rfl, hst, ?_⟩
          unfold reorderUpd
          rw [hsp]
          exact (Option.some_inj.mp h).symm

theorem reorderUpd_ids_perm (cards0 : List (Option Card)) (s t : Int) (col : Column) :
    (cardSlotIds ((reorderUpd cards0 s t) col).cards).Perm (cardSlotIds cards0) := by
  refine List.Perm.trans
    (cardSlotIds_perm_of_slot_perm (jsSpliceIns_perm (jsSpliceOut cards0 s).2 t
      (jsSpliceOut cards0 s).1)) ?_
  exact cardSlotIds_spliceOut_cons_perm cards0 s

theorem reorderCards_some_ids {b : Board} {cid : String} {s t : Int} {b' : Board}
    (h : reorderCards b cid s t = some b') :
    (Board.cardIds b').Perm (Board.cardIds b) ∧ Board.colIds b' = Board.colIds b := by
  rcases reorderCards_some_cases h with rfl | ⟨column, hF, hst, rfl⟩
  · exact ⟨List.Perm.refl _, rfl⟩
  · constructor
    · show (colsCardIds (updateColById b.columns cid (reorderUpd column.cards s t))).Perm
        (colsCardIds b.columns)
      obtain ⟨X, Y, h1, h2⟩ :=
        colsCardIds_updateColById_of_find (reorderUpd column.cards s t) hF
      rw [h1, h2]
      exact List.Perm.append_left X
        (((reorderUpd_ids_perm column.cards s t _).trans
          (List.Perm.refl _)).append_right Y)
    · exact colsColIds_updateColById (fun _ => rfl)

theorem reorderColumns_ids (b : Board) (s t : Int) :
    ((reorderColumns b s t).cardIds).Perm (Board.cardIds b) ∧
      ((reorderColumns b s t).colIds).Perm (Board.colIds b) := by
  unfold reorderColumns
  by_cases hst : s = t
  · rw [if_pos hst]
    exact ⟨List.Perm.refl _, List.Perm.refl _⟩
  · rw [if_neg hst]
    cases hsp : jsSpliceOut b.columns s with
    | mk removedSlot rest =>
      have hins : (jsSpliceIns rest t removedSlot).Perm (removedSlot :: rest) :=
        jsSpliceIns_perm rest t removedSlot
      have h1 : (colsCardIds (removedSlot :: rest)).Perm (colsCardIds b.columns) := by
        have := colsCardIds_spliceOut_cons_perm b.columns s
        rwa [hsp] at this
      have h2 : (colsColIds (removedSlot :: rest)).Perm (colsColIds b.columns) := by
        have := colsColIds_spliceOut_cons_perm b.columns s
        rwa [hsp] at this
      exact ⟨(colsCardIds_perm_of_slot_perm hins).trans h1,
        (colsColIds_perm_of_slot_perm hins).trans h2⟩

/-! ## The uniqueness invariant under operation sequences -/

theorem applyOp_some_ids {b b' : Board} {op : Op} (h : applyOp b op = some b') :
    (Board.cardIds b').Perm (Board.cardIds b) ∧ (Board.colIds b').Perm (Board.colIds b) := by
  cases op with
  | move now cardId src tgt ti =>
    obtain ⟨h1, h2⟩ := moveCard_some_ids h
    exact ⟨h1, h2 ▸ List.Perm.refl _⟩
  | reorderC cid s t =>
    obtain ⟨h1, h2⟩ := reorderCards_some_ids h
    exact ⟨h1, h2 ▸ List.Perm.refl _⟩
  | reorderCol s t =>
    have := reorderColumns_ids b s t
    obtain rfl : reorderColumns b s t = b' := Option.some_inj.mp h
    exact this

theorem runOps_ids {ops : List Op} {b b' : Board} (h : runOps b ops = some b') :
    (Board.cardIds b').Perm (Board.cardIds b) ∧ (Board.colIds b').Perm (Board.colIds b) := by
  induction ops generalizing b with
  | nil => obtain rfl : b = b' := Option.some_inj.mp h; exact ⟨.refl _, .refl _⟩
  | cons op ops ih =>
    unfold runOps at h
    cases hop : applyOp b op with
    | none => rw [hop] at h; exact absurd h (by simp)
    | some b₁ =>
      rw [hop] at h
      obtain ⟨p1, p2⟩ := applyOp_some_ids hop
      obtain ⟨q1, q2⟩ := ih h
      exact ⟨q1.trans p1, q2.trans p2⟩

/-! ## Where each column ends up after `moveCard` -/

theorem jsFindP_mem_of_some_some {l : List (Option α)} {p : α → Bool} {a : α}
    (h : jsFindP l p = some (some a)) : some a ∈ l := by
  obtain ⟨-, l₁, l₂, rfl, -⟩ := jsFindP_some_some h
  simp

theorem moveCard_find_target {b : Board} {src tgt : String} {colS colT : Column}
    {n : Nat} {a : Card} (now : Nat) (ti : Option Int)
    (hS : jsFindP b.columns (fun col => col.id = src) = some (some colS))
    (hT : jsFindP b.columns (fun col => col.id = tgt) = some (some colT)) :
    jsFindP (movedColumns now b.columns src tgt colS.cards n a ti) (fun c => c.id = tgt) =
      some (some ((insertUpd now a ti)
        (if tgt = src then (removeUpd colS.cards n) colS else colT))) := by
  have hid1 : ∀ col, ((removeUpd colS.cards n) col).id = col.id := fun _ => rfl
  by_cases hts : tgt = src
  · rw [if_pos hts]
    subst hts
    have h1 : jsFindP (updateColById b.columns tgt (removeUpd colS.cards n))
        (fun c => c.id = tgt) = some (some ((removeUpd colS.cards n) colS)) :=
      jsFindP_updateColById_self hid1 hS
    exact jsFindP_updateColById_self (fun _ => rfl) h1
  · rw [if_neg hts]
    have h1 : jsFindP (updateColById b.columns src (removeUpd colS.cards n))
        (fun c => c.id = tgt) = some (some colT) :=
      (jsFindP_updateColById_of_ne hid1 hts).trans hT
    exact jsFindP_updateColById_self (fun _ => rfl) h1

theorem moveCard_find_source {b : Board} {src tgt : String} {colS : Column}
    {n : Nat} {a : Card} (now : Nat) (ti : Option Int)
    (hS : jsFindP b.columns (fun col => col.id = src) = some (some colS))
    (hst : src ≠ tgt) :
    jsFindP (movedColumns now b.columns src tgt colS.cards n a ti) (fun c => c.id = src) =
      some (some ((removeUpd colS.cards n) colS)) := by
  unfold movedColumns
  rw [@jsFindP_updateColById_of_ne _ tgt src (insertUpd now a ti) (fun _ => rfl) hst]
  exact jsFindP_updateColById_self (fun _ => rfl) hS

theorem moveCard_find_untouched {b : Board} {src tgt cid' : String} {colS : Column}
    {n : Nat} {a : Card} (now : Nat) (ti : Option Int)
    (h1 : cid' ≠ src) (h2 : cid' ≠ tgt) :
    jsFindP (movedColumns now b.columns src tgt colS.cards n a ti) (fun c => c.id = cid') =
      jsFindP b.columns (fun c => c.id = cid') := by
  unfold movedColumns
  rw [@jsFindP_updateColById_of_ne _ tgt cid' (insertUpd now a ti) (fun _ => rfl) h2]
  exact jsFindP_updateColById_of_ne (fun _ => rfl) h1

/-! ## `reorderCards` success characterisation, slot-definedness helpers -/

theorem reorderCards_eq_of_found {b : Board} {cid : String} {s t : Int} {column : Column}
    (hF : jsFindP b.columns (fun col => col.id = cid) = some (some column)) (hst : s ≠ t) :
    reorderCards b cid s t =
      some { b with columns := updateColById b.columns cid (reorderUpd column.cards s t) } := by
  unfold reorderCards
  rw [hF]
  dsimp only
  rw [if_neg hst]
  cases hsp : jsSpliceOut column.cards s with
  | mk removedSlot rest =>
    dsimp only
    unfold reorderUpd
    rw [hsp]

theorem jsFindP_isSome_of_defined {l : List (Option α)} {p : α → Bool}
    (h : l.all (fun c => c.isSome) = true) : ∃ r, jsFindP l p = some r := by
  induction l with
  | nil => exact ⟨none, rfl⟩
  | cons s rest ih =>
    simp only [List.all_cons, Bool.and_eq_true] at h
    obtain ⟨h1, h2⟩ := h
    cases s with
    | none => simp at h1
    | some a =>
      by_cases hp : p a
      · exact ⟨some a, by simp [jsFindP, hp]⟩
      · obtain ⟨r, hr⟩ := ih h2
        exact ⟨r, by simp only [jsFindP]; rw [if_neg hp]; exact hr⟩

theorem colsSlotsOK_mem {cols : List (Option Column)} (h : colsSlotsOK cols = true) :
    ∀ s ∈ cols, ∃ col, s = some col ∧ col.cards.all (fun c => c.isSome) = true := by
  intro s hs
  have := (List.all_eq_true.mp h) s hs
  cases s with
  | none => simp at this
  | some col => exact ⟨col, rfl, this⟩

theorem colsSlotsOK_find_isSome {cols : List (Option Column)} (p : Column → Bool)
    (h : colsSlotsOK cols = true) : ∃ r, jsFindP cols p = some r := by
  induction cols with
  | nil => exact ⟨none, rfl⟩
  | cons s rest ih =>
    obtain ⟨col, rfl, -⟩ := colsSlotsOK_mem h s (List.mem_cons_self _ _)
    have hrest : colsSlotsOK rest = true := by
      simp only [colsSlotsOK, List.all_cons, Bool.and_eq_true] at h
      exact h.2
    by_cases hp : p col
    · exact ⟨some col, by simp [jsFindP, hp]⟩
    · obtain ⟨r, hr⟩ := ih hrest
      exact ⟨r, by simp only [jsFindP]; rw [if_neg hp]; exact hr⟩

theorem mem_jsSpliceOut_snd {l : List (Option α)} {i : Int} {x : Option α}
    (h : x ∈ (jsSpliceOut l i).2) : x ∈ l := by
  simp only [jsSpliceOut, List.mem_append] at h
  rcases h with h | h
  · exact List.mem_of_mem_take h
  · exact List.mem_of_mem_drop h

theorem mem_jsSpliceIns {l : List (Option α)} {i : Int} {a x : Option α}
    (h : x ∈ jsSpliceIns l i a) : x = a ∨ x ∈ l := by
  simp only [jsSpliceIns, List.mem_append, List.mem_cons] at h
  rcases h with h | h | h
  · exact Or.inr (List.mem_of_mem_take h)
  · exact Or.inl h
  · exact Or.inr (List.mem_of_mem_drop h)

theorem actualIndex_of_nonneg_lt {len : Nat} {i : Int} (h0 : 0 ≤ i)
    (hlt : i < (len : Int)) : actualIndex len i = i.toNat ∧ i.toNat < len := by
  unfold actualIndex
  constructor
  · rw [if_neg (by omega)]
    omega
  · omega

theorem jsSpliceOut_fst_mem {l : List (Option α)} {i : Int} (h0 : 0 ≤ i)
    (hlt : i < (l.length : Int)) : (jsSpliceOut l i).1 ∈ l := by
  obtain ⟨ha, hb⟩ := actualIndex_of_nonneg_lt h0 hlt
  have hget : l[actualIndex l.length i]? = some (l.get ⟨i.toNat, hb⟩) := by
    rw [ha]
    exact List.getElem?_eq_getElem hb
  simp only [jsSpliceOut, hget, Option.join]
  exact List.get_mem l i.toNat hb

theorem colsSlotsOK_updateColById {cols : List (Option Column)} {cid : String}
    {f : Column → Column} (h : colsSlotsOK cols = true)
    (hf : ∀ col, col.cards.all (fun c => c.isSome) = true →
      (f col).cards.all (fun c => c.isSome) = true) :
    colsSlotsOK (updateColById cols cid f) = true := by
  induction cols with
  | nil => rfl
  | cons s rest ih =>
    simp only [colsSlotsOK, List.all_cons, Bool.and_eq_true] at h
    obtain ⟨h1, h2⟩ := h
    cases s with
    | none => simp at h1
    | some col =>
      by_cases hc : col.id = cid
      · rw [updateColById_cons_match hc]
        simp only [colsSlotsOK, List.all_cons, Bool.and_eq_true]
        exact ⟨hf col h1, h2⟩
      · simp only [updateColById]
        rw [if_neg hc]
        simp only [colsSlotsOK, List.all_cons, Bool.and_eq_true]
        exact ⟨h1, ih h2⟩

theorem reorderUpd_defined {cards0 : List (Option Card)} {s t : Int}
    (hall : cards0.all (fun c => c.isSome) = true) (h0 : 0 ≤ s)
    (hlt : s < (cards0.length : Int)) (col : Column) :
    ((reorderUpd cards0 s t) col).cards.all (fun c => c.isSome) = true := by
  rw [List.all_eq_true]
  intro x hx
  rcases mem_jsSpliceIns hx with rfl | hx2
  · exact (List.all_eq_true.mp hall) _ (jsSpliceOut_fst_mem h0 hlt)
  · exact (List.all_eq_true.mp hall) _ (mem_jsSpliceOut_snd hx2)

/-! ## The claims -/

/-- C2: the spec asserts all transform operations are pure in their
`board` argument (never mutated in place; a new value derived).  The
code's `{ ...board }` copies only the top level, and both splices of
`moveCard` run on the `cards` arrays shared with the argument, so after
a successful `moveCard` the caller's board has changed: on the concrete
board `bAB`, moving `c1` from column `A` to column `B` leaves the
argument equal to the returned board, not to its original value. -/
theorem moveCard_mutates_argument :
    moveCardArgAfter 7 bAB "c1" "A" "B" none ≠ bAB := by decide

/-- C3: starting from a board whose card identifiers are globally unique
(each appears in at most one column, and once there) and whose column
identifiers are unique, any sequence of `moveCard` / `reorderCards` /
`reorderColumns` calls that completes preserves both uniqueness
properties: no card id ends up in two columns, no column id repeats. -/
theorem ops_preserve_identifier_uniqueness {b b' : Board} {ops : List Op}
    (hcard : (Board.cardIds b).Nodup) (hcol : (Board.colIds b).Nodup)
    (h : runOps b ops = some b') :
    (Board.cardIds b').Nodup ∧ (Board.colIds b').Nodup := by
  obtain ⟨p1, p2⟩ := runOps_ids h
  exact ⟨p1.nodup_iff.mpr hcard, p2.nodup_iff.mpr hcol⟩

/-- Witness for C3 on the concrete board `bAB` and the concrete
five-operation sequence `opsW`. -/
theorem ops_preserve_identifier_uniqueness_witness :
    (Board.cardIds bAB).Nodup ∧ (Board.colIds bAB).Nodup :=
  ops_preserve_identifier_uniqueness (by decide) (by decide)
    (show runOps bAB opsW = some bAB by decide)

/-- C9: `handleDragEnd` always writes `setActiveCard(null)` and
`setActiveColumn(null)` first — the drag-state component of its result
is `(none, none)` for every event and board, unconditionally — and when
the event carries no `over` entity the publishing part returns
immediately: no board is published and nothing is thrown, so the state
clear is the only effect. -/
theorem dragEnd_clears_state_and_cancel_noop (now : Nat) (b : Board) (ev : DragEvent) :
    (handleDragEnd now b ev).1 = (none, none) ∧
      (ev.over = none → (handleDragEnd now b ev).2 = some none) := by
  refine ⟨rfl, fun hov => ?_⟩
  simp [handleDragEnd, handleDragEndPublish, hov]

/-- Witness for C9: a cancelled drag (no `over`) of card `c1` over the
concrete board `bAB`. -/
theorem dragEnd_clears_state_and_cancel_noop_witness :
    (handleDragEnd 0 bAB
        { active := { id := "c1", data := some (.card (sampleCard "c1")) },
          over := none }).1 = (none, none) ∧
      (handleDragEnd 0 bAB
        { active := { id := "c1", data := some (.card (sampleCard "c1")) },
          over := none }).2 = some none :=
  ⟨(dragEnd_clears_state_and_cancel_noop 0 bAB _).1,
    (dragEnd_clears_state_and_cancel_noop 0 bAB _).2 rfl⟩

/-- C1 (counterexample): the claim says an out-of-range index makes
`reorderCards` / `reorderColumns` return the input board unchanged.  On
the one-card board `bA1`, `reorderCards(bA1, "A", 5, 0)` instead splices
`undefined` in front of `c1` (the malformed board `bA1bad`), and
`reorderColumns(bA1, 5, 0)` likewise inserts an `undefined` column
slot. -/
theorem reorder_out_of_range_counterexample :
    reorderCards bA1 "A" 5 0 ≠ some bA1 ∧
      reorderCards bA1 "A" 5 0 = some bA1bad ∧
      bA1bad.slotsOK = false ∧ bA1.slotsOK = true ∧
      reorderColumns bA1 5 0 ≠ bA1 ∧ (reorderColumns bA1 5 0).slotsOK = false := by
  decide

/-- C1 (amended): on a board inhabiting the declared TS types,
`reorderCards` returns the input board unchanged when the column id does
not resolve or when the two indices are equal (`reorderColumns`
likewise for equal indices), and when the removal index is in range
(`0 ≤ sourceIndex < length`) both functions produce a valid new board —
all slots defined, card ids a permutation of the input's, column ids
preserved.  (As the counterexample shows, the functions are *not*
total in the claimed sense: an out-of-range `sourceIndex` is not
guarded and splices an `undefined` slot into the board.) -/
theorem reorder_total_amended (b : Board) (cid : String) (s t : Int)
    (hOK : b.slotsOK = true) :
    ((∀ col, some col ∈ b.columns → ¬col.id = cid) → reorderCards b cid s t = some b) ∧
    (s = t → reorderCards b cid s t = some b ∧ reorderColumns b s t = b) ∧
    (∀ column, jsFindP b.columns (fun col => col.id = cid) = some (some column) →
      s ≠ t → 0 ≤ s → s < (column.cards.length : Int) →
      ∃ b', reorderCards b cid s t = some b' ∧ b'.slotsOK = true ∧
        (Board.cardIds b').Perm (Board.cardIds b) ∧ Board.colIds b' = Board.colIds b) ∧
    (s ≠ t → 0 ≤ s → s < (b.columns.length : Int) →
      (reorderColumns b s t).slotsOK = true ∧
      ((reorderColumns b s t).cardIds).Perm (Board.cardIds b) ∧
      ((reorderColumns b s t).colIds).Perm (Board.colIds b)) := by
  refine ⟨?_, ?_, ?_, ?_⟩
  · intro hno
    have hfind : jsFindP b.columns (fun col => col.id = cid) = some none := by
      apply jsFindP_of_no_match
      intro sl hsl
      obtain ⟨col, rfl, -⟩ := colsSlotsOK_mem hOK sl hsl
      exact ⟨col, rfl, by simp [hno col hsl]⟩
    unfold reorderCards
    rw [hfind]
  · intro hst
    constructor
    · obtain ⟨r, hr⟩ := colsSlotsOK_find_isSome (fun col => col.id = cid) hOK
      unfold reorderCards
      rw [hr]
      cases r with
      | none => rfl
      | some column => dsimp only; rw [if_pos hst]
    · unfold reorderColumns
      rw [if_pos hst]
  · intro column hF hst h0 hlt
    have hb' := reorderCards_eq_of_found hF hst
    refine ⟨_, hb', ?_, (reorderCards_some_ids hb').1, (reorderCards_some_ids hb').2⟩
    have hcards : column.cards.all (fun c => c.isSome) = true := by
      obtain ⟨col', heq, hc⟩ := colsSlotsOK_mem hOK (some column) (jsFindP_mem_of_some_some hF)
      cases heq
      exact hc
    exact colsSlotsOK_updateColById hOK (fun col _ => reorderUpd_defined hcards h0 hlt col)
  · intro hst h0 hlt
    refine ⟨?_, (reorderColumns_ids b s t).1, (reorderColumns_ids b s t).2⟩
    unfold reorderColumns
    rw [if_neg hst]
    cases hsp : jsSpliceOut b.columns s with
    | mk slot rest =>
      dsimp only
      show colsSlotsOK (jsSpliceIns rest t slot) = true
      unfold Board.slotsOK colsSlotsOK at hOK
      unfold colsSlotsOK
      rw [List.all_eq_true]
      intro x hx
      rcases mem_jsSpliceIns hx with rfl | hx2
      · have hm : x ∈ b.columns := by
          have := @jsSpliceOut_fst_mem Column b.columns s h0 hlt
          rwa [hsp] at this
        exact (List.all_eq_true.mp hOK) _ hm
      · have hm : x ∈ b.columns := by
          refine @mem_jsSpliceOut_snd Column b.columns s x ?_
          rw [hsp]
          exact hx2
        exact (List.all_eq_true.mp hOK) _ hm

/-- Witness for the amended C1: the in-range branch at the concrete
board `bAB`, column `"A"`, indices `0 → 1`. -/
theorem reorder_total_amended_witness :
    ∃ b', reorderCards bAB "A" 0 1 = some b' ∧ b'.slotsOK = true ∧
      (Board.cardIds b').Perm (Board.cardIds bAB) ∧ Board.colIds b' = Board.colIds bAB :=
  (reorder_total_amended bAB "A" 0 1 (by decide)).2.2.1 colA3 (by decide) (by decide)
    (by decide) (by decide)

/-- C4: `moveCard` fails soft on every lookup miss: on a board of the
declared TS types, if the source column id resolves to no column, or the
target column id resolves to no column, or the source column's card
sequence holds no card with the given id, the input board is returned
unchanged. -/
theorem moveCard_lookup_miss_returns_input (now : Nat) (b : Board)
    (cardId src tgt : String) (ti : Option Int) (hOK : b.slotsOK = true)
    (hmiss :
      (∀ col, some col ∈ b.columns → ¬col.id = src) ∨
      (∀ col, some col ∈ b.columns → ¬col.id = tgt) ∨
      (∀ colS, jsFindP b.columns (fun col => col.id = src) = some (some colS) →
        ∀ c, some c ∈ colS.cards → ¬c.id = cardId)) :
    moveCard now b cardId src tgt ti = some b := by
  obtain ⟨rS, hrS⟩ := colsSlotsOK_find_isSome (fun col => col.id = src) hOK
  obtain ⟨rT, hrT⟩ := colsSlotsOK_find_isSome (fun col => col.id = tgt) hOK
  unfold moveCard
  rw [hrS, hrT]
  rcases hmiss with h1 | h2 | h3
  · cases rS with
    | none => cases rT <;> rfl
    | some colS =>
      exfalso
      exact (h1 colS (jsFindP_mem_of_some_some hrS))
        (by simpa using (jsFindP_some_some hrS).1)
  · cases rT with
    | none => cases rS <;> rfl
    | some colT =>
      exfalso
      exact (h2 colT (jsFindP_mem_of_some_some hrT))
        (by simpa using (jsFindP_some_some hrT).1)
  · cases rS with
    | none => cases rT <;> rfl
    | some colS =>
      cases rT with
      | none => rfl
      | some colT =>
        dsimp only
        have hcards : colS.cards.all (fun c => c.isSome) = true := by
          obtain ⟨col', heq, hc⟩ :=
            colsSlotsOK_mem hOK (some colS) (jsFindP_mem_of_some_some hrS)
          cases heq
          exact hc
        have hidx : jsFindIndexP colS.cards (fun c => c.id = cardId) = some (-1) := by
          apply jsFindIndexFrom_of_no_match
          intro sl hsl
          cases sl with
          | none => exact absurd ((List.all_eq_true.mp hcards) _ hsl) (by simp)
          | some cc => exact ⟨cc, rfl, by simp [h3 colS hrS cc hsl]⟩
        rw [hidx]
        dsimp only
        rw [if_pos rfl]

/-- Witness for C4: moving `c1` out of the non-existent column `"Z"` on
the concrete board `bAB` returns `bAB` itself. -/
theorem moveCard_lookup_miss_returns_input_witness :
    moveCard 3 bAB "c1" "Z" "B" none = some bAB :=
  moveCard_lookup_miss_returns_input 3 bAB "c1" "Z" "B" none (by decide)
    (Or.inl (by
      intro col hc
      simp only [bAB, colA3, colB1, List.mem_cons, List.not_mem_nil, or_false,
        Option.some.injEq] at hc
      rcases hc with rfl | rfl <;> decide))

theorem actualIndex_coe_of_le {len n : Nat} (h : n ≤ len) :
    actualIndex len (n : Int) = n := by
  simp [actualIndex, h]

theorem eraseIdx_eq_take_drop_succ (l : List α) (n : Nat) :
    l.eraseIdx n = l.take n ++ l.drop (n + 1) := by
  induction l generalizing n with
  | nil => simp
  | cons x xs ih =>
    cases n with
    | zero => simp
    | succ n => simpa [List.eraseIdx_cons_succ] using ih n

theorem insertIdx_eq_take_cons_drop {l : List α} {n : Nat} (h : n ≤ l.length) (a : α) :
    l.insertIdx n a = l.take n ++ a :: l.drop n := by
  induction l generalizing n with
  | nil =>
    cases n with
    | zero => rfl
    | succ n => simp at h
  | cons x xs ih =>
    cases n with
    | zero => rfl
    | succ n => simpa [List.insertIdx_succ_cons] using ih (by simpa using h)

/-- C6: when the column is found and both indices are in range and
distinct, `reorderCards` removes the slot at `sourceIndex` and
re-inserts it at `targetIndex` within the same column (so the scenario
`[c1,c2,c3]`, `0 → 2` yields `[c2,c3,c1]`, see the witness); when the
two indices are equal, or no column carries the id, the input board is
returned unchanged. -/
theorem reorderCards_within_column :
    (∀ (b : Board) (cid : String) (column : Column) (sn tn : Nat)
      (hF : jsFindP b.columns (fun col => col.id = cid) = some (some column))
      (hs : sn < column.cards.length), tn < column.cards.length → sn ≠ tn →
      ∃ b', reorderCards b cid (sn : Int) (tn : Int) = some b' ∧
        jsFindP b'.columns (fun col => col.id = cid) =
          some (some (withCards column
            ((column.cards.eraseIdx sn).insertIdx tn (column.cards.get ⟨sn, hs⟩))))) ∧
    (∀ (b : Board) (cid : String) (s : Int), b.slotsOK = true →
      reorderCards b cid s s = some b) ∧
    (∀ (b : Board) (cid : String) (s t : Int), b.slotsOK = true →
      (∀ col, some col ∈ b.columns → ¬col.id = cid) →
      reorderCards b cid s t = some b) := by
  refine ⟨?_, ?_, ?_⟩
  · intro b cid column sn tn hF hs ht hst
    have hcast : ¬((sn : Int) = (tn : Int)) := by omega
    have hb' := reorderCards_eq_of_found hF hcast
    refine ⟨_, hb', ?_⟩
    have hget : column.cards[sn]? = some (column.cards.get ⟨sn, hs⟩) :=
      List.getElem?_eq_getElem hs
    have hcards :
        jsSpliceIns (jsSpliceOut column.cards (sn : Int)).2 (tn : Int)
            (jsSpliceOut column.cards (sn : Int)).1 =
          (column.cards.eraseIdx sn).insertIdx tn (column.cards.get ⟨sn, hs⟩) := by
      rw [jsSpliceOut_of_getElem? hget]
      dsimp only
      have hlen : (column.cards.take sn ++ column.cards.drop (sn + 1)).length =
          column.cards.length - 1 := by
        simp only [List.length_append, List.length_take, List.length_drop]
        omega
      rw [eraseIdx_eq_take_drop_succ]
      rw [insertIdx_eq_take_cons_drop (by rw [hlen]; omega)]
      unfold jsSpliceIns
      rw [actualIndex_coe_of_le (by rw [hlen]; omega)]
    show jsFindP (updateColById b.columns cid (reorderUpd column.cards (sn : Int) (tn : Int)))
        (fun col => col.id = cid) = _
    rw [@jsFindP_updateColById_self b.columns cid
      (reorderUpd column.cards (sn : Int) (tn : Int)) column (fun _ => rfl) hF]
    simp only [reorderUpd, withCards, hcards]
  · intro b cid s hOK
    obtain ⟨r, hr⟩ := colsSlotsOK_find_isSome (fun col => col.id = cid) hOK
    unfold reorderCards
    rw [hr]
    cases r with
    | none => rfl
    | some column => dsimp only; rw [if_pos rfl]
  · intro b cid s t hOK hno
    have hfind : jsFindP b.columns (fun col => col.id = cid) = some none := by
      apply jsFindP_of_no_match
      intro sl hsl
      obtain ⟨col, rfl, -⟩ := colsSlotsOK_mem hOK sl hsl
      exact ⟨col, rfl, by simp [hno col hsl]⟩
    unfold reorderCards
    rw [hfind]

/-- Witness for C6: the spec's scenario — on board `bAB`, column `"A"`
holds `[c1,c2,c3]`, and `reorderCards(bAB, "A", 0, 2)` turns it into
`[c2,c3,c1]`. -/
theorem reorderCards_within_column_witness :
    ∃ b', reorderCards bAB "A" 0 2 = some b' ∧
      jsFindP b'.columns (fun col => col.id = "A") =
        some (some (withCards colA3
          [some (sampleCard "c2"), some (sampleCard "c3"), some (sampleCard "c1")])) := by
  have h := reorderCards_within_column.1 bAB "A" colA3 0 2 (by decide) (by decide)
    (by decide) (by decide)
  exact h

theorem actualIndex_of_nonneg_le {len : Nat} {t : Int} (h0 : 0 ≤ t)
    (hle : t ≤ (len : Int)) : actualIndex len t = t.toNat := by
  unfold actualIndex
  rw [if_neg (by omega)]
  omega

theorem actualIndex_of_neg {len : Nat} {t : Int} (h : t < 0) :
    actualIndex len t = ((len : Int) + t).toNat := by
  unfold actualIndex
  rw [if_pos h]

theorem jsSpliceIns_append_of_gt {l : List (Option α)} {t : Int} (a : Option α)
    (h : (l.length : Int) < t) : jsSpliceIns l t a = l ++ [a] := by
  unfold jsSpliceIns
  have : actualIndex l.length t = l.length := by
    unfold actualIndex
    rw [if_neg (by omega)]
    omega
  rw [this]
  simp

/-- C5 (counterexample): the claim says a supplied `targetIndex` that is
out of range makes `moveCard` append at the end.  With
`targetIndex = -1` (out of the range `0..length`), moving `c1` from `A`
into `B = [x]` on the board `bAB` instead yields `B = [c1, x]` — the
negative start clamps to `length - 1 = 0`, in front of `x`, not an
append. -/
theorem moveCard_negative_index_counterexample :
    moveCard 7 bAB "c1" "A" "B" (some (-1)) = some bC5clamp ∧
      moveCard 7 bAB "c1" "A" "B" (some (-1)) ≠ some bC5append := by
  decide

/-- C5 (amended): when both columns and the card are found, `moveCard`
inserts the moved card (its `updatedAt` re-stamped) into the target
column's sequence — the sequence after removal, which in a
distinct-column move is just the target's sequence: at `targetIndex`
when `0 ≤ targetIndex ≤ length`; appended at the end when `targetIndex`
is absent *or greater than the length*; and, for a negative
`targetIndex`, at position `max(length + targetIndex, 0)` (JS splice
clamping) rather than the claimed append. -/
theorem moveCard_insert_position (now : Nat) (b : Board) (cardId src tgt : String)
    (colS colT : Column) (n : Nat) (a : Card) (ti : Option Int)
    (hS : jsFindP b.columns (fun col => col.id = src) = some (some colS))
    (hT : jsFindP b.columns (fun col => col.id = tgt) = some (some colT))
    (hidx : jsFindIndexP colS.cards (fun c => c.id = cardId) = some ((n : Nat) : Int))
    (hget : colS.cards[n]? = some (some a)) :
    ∃ b' colT', moveCard now b cardId src tgt ti = some b' ∧
      jsFindP b'.columns (fun c => c.id = tgt) = some (some colT') ∧
      colT'.cards =
        (let base := if tgt = src then colS.cards.take n ++ colS.cards.drop (n + 1)
          else colT.cards
        let mc : Option Card := some { a with updatedAt := some now }
        match ti with
        | none => base ++ [mc]
        | some t =>
          if 0 ≤ t ∧ t ≤ (base.length : Int) then
            base.take t.toNat ++ mc :: base.drop t.toNat
          else if (base.length : Int) < t then base ++ [mc]
          else base.take (((base.length : Int) + t).toNat) ++
            mc :: base.drop (((base.length : Int) + t).toNat)) := by
  refine ⟨_, _, moveCard_eq_of_found now ti hS hT hidx hget,
    moveCard_find_target now ti hS hT, ?_⟩
  have hbase : ((if tgt = src then (removeUpd colS.cards n) colS else colT)).cards =
      (if tgt = src then colS.cards.take n ++ colS.cards.drop (n + 1) else colT.cards) := by
    by_cases hts : tgt = src
    · rw [if_pos hts, if_pos hts]
      rfl
    · rw [if_neg hts, if_neg hts]
  simp only [insertUpd]
  rw [hbase]
  cases ti with
  | none => rfl
  | some t =>
    dsimp only
    by_cases h1 : 0 ≤ t ∧ t ≤ ((if tgt = src then colS.cards.take n ++ colS.cards.drop (n + 1)
        else colT.cards).length : Int)
    · rw [if_pos h1]
      unfold jsSpliceIns
      rw [actualIndex_of_nonneg_le h1.1 h1.2]
    · rw [if_neg h1]
      by_cases h2 : ((if tgt = src then colS.cards.take n ++ colS.cards.drop (n + 1)
          else colT.cards).length : Int) < t
      · rw [if_pos h2]
        exact jsSpliceIns_append_of_gt _ h2
      · rw [if_neg h2]
        unfold jsSpliceIns
        rw [actualIndex_of_neg (by omega)]

/-- Witness for the amended C5: on the concrete board `bAB`, moving
`c1` from `A` into `B = [x]` at `targetIndex = 0` puts it in front of
`x`. -/
theorem moveCard_insert_position_witness :
    ∃ b' colT', moveCard 7 bAB "c1" "A" "B" (some 0) = some b' ∧
      jsFindP b'.columns (fun c => c.id = "B") = some (some colT') ∧
      colT'.cards = [some cardC1moved, some (sampleCard "x")] := by
  have h := moveCard_insert_position 7 bAB "c1" "A" "B" colA3 colB1 0 (sampleCard "c1")
    (some 0) (by decide) (by decide) (by decide) (by decide)
  exact h

theorem mem_colsCardSlots_of_mem {cols : List (Option Column)} {col : Column}
    {x : Option Card} (hcol : some col ∈ cols) (hx : x ∈ col.cards) :
    x ∈ colsCardSlots cols := by
  simp only [colsCardSlots, List.mem_flatMap]
  exact ⟨some col, hcol, hx⟩

theorem mem_colsCardSlots_updateColById {cols : List (Option Column)} {cid : String}
    {f : Column → Column} {x : Option Card}
    (h : x ∈ colsCardSlots (updateColById cols cid f)) :
    x ∈ colsCardSlots cols ∨ ∃ col, some col ∈ cols ∧ col.id = cid ∧ x ∈ (f col).cards := by
  induction cols with
  | nil => simp [updateColById, colsCardSlots] at h
  | cons s rest ih =>
    cases s with
    | none =>
      simp only [updateColById, colsCardSlots, List.flatMap_cons] at h
      rcases ih (by simpa [colsCardSlots] using h) with h1 | ⟨col, hc1, hc2, hc3⟩
      · left; simpa [colsCardSlots] using h1
      · right; exact ⟨col, List.mem_cons_of_mem _ hc1, hc2, hc3⟩
    | some col =>
      by_cases hc : col.id = cid
      · rw [updateColById_cons_match hc] at h
        simp only [colsCardSlots, List.flatMap_cons, List.mem_append] at h
        rcases h with h1 | h1
        · right; exact ⟨col, List.mem_cons_self _ _, hc, h1⟩
        · left
          simp only [colsCardSlots, List.flatMap_cons, List.mem_append]
          right; exact h1
      · simp only [updateColById] at h
        rw [if_neg hc] at h
        simp only [colsCardSlots, List.flatMap_cons, List.mem_append] at h
        rcases h with h1 | h1
        · left
          simp only [colsCardSlots, List.flatMap_cons, List.mem_append]
          left; exact h1
        · rcases ih (by simpa [colsCardSlots] using h1) with h2 | ⟨col2, hc1, hc2, hc3⟩
          · left
            simp only [colsCardSlots, List.flatMap_cons, List.mem_append]
            right; simpa [colsCardSlots] using h2
          · right; exact ⟨col2, List.mem_cons_of_mem _ hc1, hc2, hc3⟩

theorem jsSpliceOut_fst_eq_none_or_mem (l : List (Option α)) (i : Int) :
    (jsSpliceOut l i).1 = none ∨ (jsSpliceOut l i).1 ∈ l := by
  cases hget : l[actualIndex l.length i]? with
  | none => left; simp [jsSpliceOut, hget]
  | some x =>
    right
    have hx : x ∈ l := by
      have hlt : actualIndex l.length i < l.length := (List.getElem?_eq_some_iff.mp hget).1
      have := List.getElem?_eq_getElem hlt
      rw [hget] at this
      obtain rfl : x = _ := (Option.some_inj.mp this)
      exact List.getElem_mem hlt
    simpa [jsSpliceOut, hget, Option.join] using hx

theorem mem_of_getElem? {l : List α} {n : Nat} {x : α} (h : l[n]? = some x) : x ∈ l := by
  obtain ⟨hlt, rfl⟩ := List.getElem?_eq_some_iff.mp h
  exact List.getElem_mem hlt

/-- C10: no transform touches anything outside the sequences it
addresses.  All three operations keep the board's `id`, `title`,
`createdAt` and `updatedAt` (board-level timestamps are never
refreshed).  `moveCard` keeps the column count, changes no column slot
other than (at most) the first source and first target matches — and
even those only in their `cards` — and every card value of the result
was already on the input board except the moved card, which differs
from an input card only in its freshly-stamped `updatedAt`.
`reorderCards` changes no column slot other than the addressed one and
introduces no new card value (so no timestamp changes), and
`reorderColumns` only rearranges the existing column slots. -/
theorem transforms_frame_conditions :
    (∀ (now : Nat) (b : Board) (cardId src tgt : String) (ti : Option Int) (b' : Board),
      moveCard now b cardId src tgt ti = some b' →
      b'.id = b.id ∧ b'.title = b.title ∧ b'.createdAt = b.createdAt ∧
        b'.updatedAt = b.updatedAt ∧ b'.columns.length = b.columns.length ∧
        (∀ nn : Nat, b'.columns[nn]? = b.columns[nn]? ∨
          ∃ col col', b.columns[nn]? = some (some col) ∧
            b'.columns[nn]? = some (some col') ∧ col'.id = col.id ∧
            col'.title = col.title ∧ col'.color = col.color ∧ col'.limit = col.limit ∧
            (col.id = src ∨ col.id = tgt)) ∧
        (∀ cc : Card, some cc ∈ b'.cardSlots → some cc ∈ b.cardSlots ∨
          (cc.updatedAt = some now ∧
            ∃ c₀, some c₀ ∈ b.cardSlots ∧ cc = { c₀ with updatedAt := some now }))) ∧
    (∀ (b : Board) (cid : String) (s t : Int) (b' : Board),
      reorderCards b cid s t = some b' →
      b'.id = b.id ∧ b'.title = b.title ∧ b'.createdAt = b.createdAt ∧
        b'.updatedAt = b.updatedAt ∧
        (∀ nn : Nat, b'.columns[nn]? = b.columns[nn]? ∨
          ∃ col col', b.columns[nn]? = some (some col) ∧ col.id = cid ∧
            b'.columns[nn]? = some (some col') ∧ col'.id = col.id ∧
            col'.title = col.title ∧ col'.color = col.color ∧ col'.limit = col.limit) ∧
        (∀ cc : Card, some cc ∈ b'.cardSlots → some cc ∈ b.cardSlots)) ∧
    (∀ (b : Board) (s t : Int),
      (reorderColumns b s t).id = b.id ∧ (reorderColumns b s t).title = b.title ∧
        (reorderColumns b s t).createdAt = b.createdAt ∧
        (reorderColumns b s t).updatedAt = b.updatedAt ∧
        (∀ col, some col ∈ (reorderColumns b s t).columns → some col ∈ b.columns)) := by
  refine ⟨?_, ?_, ?_⟩
  · intro now b cardId src tgt ti b' h
    rcases moveCard_some_cases h with rfl | ⟨colS, colT, n, a, hS, hT, hidx, hget, rfl⟩
    · exact ⟨rfl, rfl, rfl, rfl, rfl, fun nn => Or.inl rfl, fun cc hc => Or.inl hc⟩
    · have hmemS : some colS ∈ b.columns := jsFindP_mem_of_some_some hS
      have hstep1 : ∀ x, x ∈ colsCardSlots (updateColById b.columns src
          (removeUpd colS.cards n)) → x ∈ colsCardSlots b.columns := by
        intro x hx
        rcases mem_colsCardSlots_updateColById hx with h1 | ⟨col, hc1, -, hc3⟩
        · exact h1
        · simp only [removeUpd, List.mem_append] at hc3
          rcases hc3 with h3 | h3
          · exact mem_colsCardSlots_of_mem hmemS (List.mem_of_mem_take h3)
          · exact mem_colsCardSlots_of_mem hmemS (List.mem_of_mem_drop h3)
      refine ⟨rfl, rfl, rfl, rfl, ?_, ?_, ?_⟩
      · show (movedColumns now b.columns src tgt colS.cards n a ti).length = _
        rw [movedColumns, updateColById_length, updateColById_length]
      · intro nn
        show (movedColumns now b.columns src tgt colS.cards n a ti)[nn]? = _ ∨ _
        rw [movedColumns]
        rcases updateColById_getElem? (updateColById b.columns src (removeUpd colS.cards n))
            tgt (insertUpd now a ti) nn with h2 | ⟨colX, hx1, hx2, hx3⟩
        · rcases updateColById_getElem? b.columns src (removeUpd colS.cards n) nn with
            h1 | ⟨colY, hy1, hy2, hy3⟩
          · left; exact h2.trans h1
          · right
            exact ⟨colY, (removeUpd colS.cards n) colY, hy1, h2.trans hy3, rfl, rfl, rfl, rfl,
              Or.inl hy2⟩
        · rcases updateColById_getElem? b.columns src (removeUpd colS.cards n) nn with
            h1 | ⟨colY, hy1, hy2, hy3⟩
          · right
            refine ⟨colX, (insertUpd now a ti) colX, h1 ▸ hx1, hx3, rfl, rfl, rfl, rfl,
              Or.inr hx2⟩
          · right
            have hXY : colX = (removeUpd colS.cards n) colY := by
              have := hy3.symm.trans hx1
              simpa using this.symm
            subst hXY
            exact ⟨colY, (insertUpd now a ti) ((removeUpd colS.cards n) colY), hy1, hx3,
              rfl, rfl, rfl, rfl, Or.inl hy2⟩
      · intro cc hcc
        have hcc' : some cc ∈ colsCardSlots (movedColumns now b.columns src tgt
            colS.cards n a ti) := hcc
        rw [movedColumns] at hcc'
        rcases mem_colsCardSlots_updateColById hcc' with h1 | ⟨col₁, hc1, -, hc3⟩
        · exact Or.inl (hstep1 _ h1)
        · have hmoved : some cc = some ({ a with updatedAt := some now } : Card) ∨
              some cc ∈ col₁.cards := by
            cases ti with
            | none =>
              simp only [insertUpd, List.mem_append, List.mem_cons] at hc3
              rcases hc3 with h3 | h3
              · exact Or.inr h3
              · simp only [List.not_mem_nil, or_false] at h3
                exact Or.inl h3
            | some tt =>
              rcases mem_jsSpliceIns hc3 with h3 | h3
              · exact Or.inl h3
              · exact Or.inr h3
          rcases hmoved with h3 | h3
          · right
            obtain rfl : cc = { a with updatedAt := some now } := Option.some_inj.mp h3
            refine ⟨rfl, a, ?_, rfl⟩
            exact mem_colsCardSlots_of_mem hmemS (mem_of_getElem? hget)
          · exact Or.inl (hstep1 _ (mem_colsCardSlots_of_mem hc1 h3))
  · intro b cid s t b' h
    rcases reorderCards_some_cases h with rfl | ⟨column, hF, hst, rfl⟩
    · exact ⟨rfl, rfl, rfl, rfl, fun nn => Or.inl rfl, fun cc hc => hc⟩
    · have hmemC : some column ∈ b.columns := jsFindP_mem_of_some_some hF
      refine ⟨rfl, rfl, rfl, rfl, ?_, ?_⟩
      · intro nn
        rcases updateColById_getElem? b.columns cid (reorderUpd column.cards s t) nn with
          h1 | ⟨col, hc1, hc2, hc3⟩
        · left; exact h1
        · right
          exact ⟨col, (reorderUpd column.cards s t) col, hc1, hc2, hc3, rfl, rfl, rfl, rfl⟩
      · intro cc hcc
        rcases mem_colsCardSlots_updateColById hcc with h1 | ⟨col, hc1, -, hc3⟩
        · exact h1
        · rcases mem_jsSpliceIns hc3 with h3 | h3
          · rcases jsSpliceOut_fst_eq_none_or_mem column.cards s with h4 | h4
            · exact absurd (h3.trans h4) (by simp)
            · rw [← h3] at h4
              exact mem_colsCardSlots_of_mem hmemC h4
          · exact mem_colsCardSlots_of_mem hmemC (mem_jsSpliceOut_snd h3)
  · intro b s t
    unfold reorderColumns
    by_cases hst : s = t
    · rw [if_pos hst]
      exact ⟨rfl, rfl, rfl, rfl, fun col hc => hc⟩
    · rw [if_neg hst]
      cases hsp : jsSpliceOut b.columns s with
      | mk slot rest =>
        dsimp only
        refine ⟨rfl, rfl, rfl, rfl, ?_⟩
        intro col hc
        rcases mem_jsSpliceIns hc with h1 | h1
        · rcases jsSpliceOut_fst_eq_none_or_mem b.columns s with h4 | h4
          · rw [hsp] at h4
            dsimp only at h4
            exact absurd (h1.trans h4) (by simp)
          · rw [hsp] at h4
            dsimp only at h4
            rw [← h1] at h4
            exact h4
        · refine @mem_jsSpliceOut_snd Column b.columns s (some col) ?_
          rw [hsp]
          exact h1

/-- Witness for C10: the `moveCard` part at the concrete call
`moveCard 7 bAB "c1" "A" "B" none`, whose result is `bC5append`. -/
theorem transforms_frame_conditions_witness :
    bC5append.id = bAB.id ∧ bC5append.title = bAB.title ∧
      bC5append.createdAt = bAB.createdAt ∧ bC5append.updatedAt = bAB.updatedAt ∧
      bC5append.columns.length = bAB.columns.length := by
  have h := transforms_frame_conditions.1 7 bAB "c1" "A" "B" none bC5append (by decide)
  exact ⟨h.1, h.2.1, h.2.2.1, h.2.2.2.1, h.2.2.2.2.1⟩

/-- C7: round trip.  On a well-formed board with distinct columns `A`
and `B`, where the card `c` sits (first) at index `i` of `A`, `c` does
not occur in `B`, and `B` has no `undefined` slots, moving `c` from `A`
to `B` (append) and then back from `B` to `A` at index `i` restores
`A`'s card ordering: the same card identifiers in the same positions
(the card values differ only in their re-stamped `updatedAt`). -/
theorem moveCard_round_trip (now₁ now₂ : Nat) (b : Board) (A B : String)
    (colA colB : Column) (c : Card) (i : Nat)
    (hAB : ¬A = B)
    (hFindA : jsFindP b.columns (fun col => col.id = A) = some (some colA))
    (hFindB : jsFindP b.columns (fun col => col.id = B) = some (some colB))
    (hidxA : jsFindIndexP colA.cards (fun x => x.id = c.id) = some ((i : Nat) : Int))
    (hget : colA.cards[i]? = some (some c))
    (hBdef : colB.cards.all (fun s => s.isSome) = true)
    (hNotInB : ∀ x, some x ∈ colB.cards → ¬x.id = c.id) :
    ∃ b₁ b₂ colA₂,
      moveCard now₁ b c.id A B none = some b₁ ∧
      moveCard now₂ b₁ c.id B A (some ((i : Nat) : Int)) = some b₂ ∧
      jsFindP b₂.columns (fun col => col.id = A) = some (some colA₂) ∧
      colA₂.cards.map (Option.map Card.id) = colA.cards.map (Option.map Card.id) := by
  have hBA : ¬B = A := fun h => hAB h.symm
  have hb₁ := moveCard_eq_of_found now₁ none hFindA hFindB hidxA hget
  have hFindB₁ := @moveCard_find_target b A B colA colB i c now₁ none hFindA hFindB
  rw [if_neg hBA] at hFindB₁
  have hFindA₁ := @moveCard_find_source b A B colA i c now₁ none hFindA hAB
  have hno : ∀ s ∈ colB.cards, ∃ bb, s = some bb ∧ (fun x => decide (x.id = c.id)) bb = false := by
    intro s hs
    cases s with
    | none => exact absurd ((List.all_eq_true.mp hBdef) _ hs) (by simp)
    | some bb => exact ⟨bb, rfl, by simp [hNotInB bb hs]⟩
  have hidxB : jsFindIndexP (insertUpd now₁ c none colB).cards (fun x => x.id = c.id) =
      some ((colB.cards.length : Nat) : Int) := by
    show jsFindIndexFrom (colB.cards ++ [some { c with updatedAt := some now₁ }]) _ 0 = _
    rw [jsFindIndexFrom_append_match hno (by simp) 0]
    simp
  have hgetB : (insertUpd now₁ c none colB).cards[colB.cards.length]? =
      some (some { c with updatedAt := some now₁ }) := by
    show (colB.cards ++ [some { c with updatedAt := some now₁ }])[colB.cards.length]? = _
    exact List.getElem?_concat_length _ _
  have hS₂ : jsFindP ({ b with
      columns := movedColumns now₁ b.columns A B colA.cards i c none } : Board).columns
      (fun col => col.id = B) = some (some (insertUpd now₁ c none colB)) := hFindB₁
  have hT₂ : jsFindP ({ b with
      columns := movedColumns now₁ b.columns A B colA.cards i c none } : Board).columns
      (fun col => col.id = A) = some (some ((removeUpd colA.cards i) colA)) := hFindA₁
  have hb₂ := moveCard_eq_of_found now₂ (some ((i : Nat) : Int)) hS₂ hT₂ hidxB hgetB
  have hFindA₂ := @moveCard_find_target
    ({ b with columns := movedColumns now₁ b.columns A B colA.cards i c none } : Board)
    B A (insertUpd now₁ c none colB) ((removeUpd colA.cards i) colA)
    colB.cards.length { c with updatedAt := some now₁ } now₂ ((some ((i : Nat) : Int)))
    hS₂ hT₂
  rw [if_neg hAB] at hFindA₂
  refine ⟨_, _, _, hb₁, hb₂, hFindA₂, ?_⟩
  have hlen_i : i < colA.cards.length := (List.getElem?_eq_some_iff.mp hget).1
  have htake_len : (colA.cards.take i).length = i := by
    simp only [List.length_take]
    omega
  have hle : i ≤ (colA.cards.take i).length := by rw [htake_len]
  have hle' : (colA.cards.take i).length ≤ i := by rw [htake_len]
  have h1 : (colA.cards.take i ++ colA.cards.drop (i + 1)).take i = colA.cards.take i := by
    rw [List.take_append_of_le_length hle]
    rw [List.take_take]
    simp
  have h2 : (colA.cards.take i ++ colA.cards.drop (i + 1)).drop i =
      colA.cards.drop (i + 1) := by
    rw [List.drop_append_of_le_length hle]
    rw [List.drop_eq_nil_of_le hle', List.nil_append]
  have hrest_len : (colA.cards.take i ++ colA.cards.drop (i + 1)).length =
      colA.cards.length - 1 := by
    simp only [List.length_append, List.length_take, List.length_drop]
    omega
  have hact : actualIndex (colA.cards.take i ++ colA.cards.drop (i + 1)).length
      ((i : Nat) : Int) = i := actualIndex_coe_of_le (by rw [hrest_len]; omega)
  show (jsSpliceIns (colA.cards.take i ++ colA.cards.drop (i + 1)) ((i : Nat) : Int)
      (some { c with updatedAt := some now₂ })).map (Option.map Card.id) =
    colA.cards.map (Option.map Card.id)
  simp only [jsSpliceIns]
  rw [hact, h1, h2]
  conv_rhs => rw [eq_take_cons_drop_of_getElem? hget]
  simp [List.map_append]

/-- Witness for C7: round-tripping `c1` between columns `A` and `B` of
the concrete board `bAB`, out of and back into index `0`. -/
theorem moveCard_round_trip_witness :
    ∃ b₁ b₂ colA₂,
      moveCard 7 bAB (sampleCard "c1").id "A" "B" none = some b₁ ∧
      moveCard 9 b₁ (sampleCard "c1").id "B" "A" (some ((0 : Nat) : Int)) = some b₂ ∧
      jsFindP b₂.columns (fun col => col.id = "A") = some (some colA₂) ∧
      colA₂.cards.map (Option.map Card.id) = colA3.cards.map (Option.map Card.id) :=
  moveCard_round_trip 7 9 bAB "A" "B" colA3 colB1 (sampleCard "c1") 0
    (by decide) (by decide) (by decide) (by decide) (by decide) (by decide)
    (by
      intro x hx
      simp only [colB1, List.mem_cons, List.not_mem_nil, or_false, Option.some.injEq] at hx
      subst hx
      decide)

theorem mem_colsCardIds_of_mem {cols : List (Option Column)} {col : Column} {x : String}
    (hcol : some col ∈ cols) (hx : x ∈ cardSlotIds col.cards) : x ∈ colsCardIds cols := by
  simp only [colsCardIds, List.mem_flatMap]
  exact ⟨some col, hcol, hx⟩

theorem findCardInCols_eq_of_mem_nodup {cols : List (Option Column)} {x : String}
    {colT : Column} {cT : Card}
    (hOK : colsSlotsOK cols = true)
    (hnodup : (colsCardIds cols).Nodup)
    (hmem : some colT ∈ cols)
    (hin : jsFindP colT.cards (fun cc => cc.id = x) = some (some cT)) :
    findCardInCols cols x = some (some (cT, colT.id)) := by
  have hxT : x ∈ cardSlotIds colT.cards := by
    have hmemT : some cT ∈ colT.cards := jsFindP_mem_of_some_some hin
    have hid : cT.id = x := by simpa using (jsFindP_some_some hin).1
    simp only [cardSlotIds, List.mem_filterMap]
    exact ⟨some cT, hmemT, by simp [hid]⟩
  revert hOK hnodup hmem
  induction cols with
  | nil =>
    intro hOK hnodup hmem
    simp at hmem
  | cons s rest ih =>
    intro hOK hnodup hmem
    obtain ⟨col, rfl, hcardsOK⟩ := colsSlotsOK_mem hOK s (List.mem_cons_self s rest)
    have hOKrest : colsSlotsOK rest = true := by
      simp only [colsSlotsOK, List.all_cons, Bool.and_eq_true] at hOK
      exact hOK.2
    obtain ⟨r, hr⟩ := @jsFindP_isSome_of_defined Card col.cards (fun cc => cc.id = x) hcardsOK
    cases r with
    | some cc =>
      rcases List.mem_cons.mp hmem with hh | hh
      · obtain rfl : colT = col := by injection hh
        unfold findCardInCols
        rw [hin]
      · exfalso
        have hxcol : x ∈ cardSlotIds col.cards := by
          have hmemc : some cc ∈ col.cards := jsFindP_mem_of_some_some hr
          have hidc : cc.id = x := by simpa using (jsFindP_some_some hr).1
          simp only [cardSlotIds, List.mem_filterMap]
          exact ⟨some cc, hmemc, by simp [hidc]⟩
        have hxrest : x ∈ colsCardIds rest := mem_colsCardIds_of_mem hh hxT
        have hdisj := List.disjoint_of_nodup_append (by simpa using hnodup)
        exact hdisj hxcol hxrest
    | none =>
      rcases List.mem_cons.mp hmem with hh | hh
      · obtain rfl : colT = col := by injection hh
        rw [hin] at hr
        simp at hr
      · unfold findCardInCols
        rw [hr]
        have hnodup' : (colsCardIds rest).Nodup :=
          @List.Nodup.of_append_right String (cardSlotIds col.cards) (colsCardIds rest)
            (by simpa using hnodup)
        exact ih hOKrest hnodup' hh

theorem movedColumns_slotsOK {cols : List (Option Column)} {src tgt : String}
    {colS : Column} {n : Nat} {a : Card} (now : Nat) (ti : Option Int)
    (hOK : colsSlotsOK cols = true) (hSmem : some colS ∈ cols) :
    colsSlotsOK (movedColumns now cols src tgt colS.cards n a ti) = true := by
  have hScards : colS.cards.all (fun c => c.isSome) = true := by
    obtain ⟨col', heq, hc⟩ := colsSlotsOK_mem hOK (some colS) hSmem
    cases heq
    exact hc
  rw [movedColumns]
  apply colsSlotsOK_updateColById
  · apply colsSlotsOK_updateColById hOK
    intro col _
    rw [List.all_eq_true]
    intro xx hxx
    simp only [removeUpd, List.mem_append] at hxx
    rcases hxx with h | h
    · exact (List.all_eq_true.mp hScards) _ (List.mem_of_mem_take h)
    · exact (List.all_eq_true.mp hScards) _ (List.mem_of_mem_drop h)
  · intro col hcol
    rw [List.all_eq_true]
    intro xx hxx
    cases ti with
    | none =>
      simp only [insertUpd, List.mem_append, List.mem_cons, List.not_mem_nil, or_false] at hxx
      rcases hxx with h | h
      · exact (List.all_eq_true.mp hcol) _ h
      · rw [h]
        rfl
    | some t =>
      rcases mem_jsSpliceIns hxx with h | h
      · rw [h]
        rfl
      · exact (List.all_eq_true.mp hcol) _ h

/-- C8: `handleDragOver` publishes a board only in the card-over-column
case — for every other active/over combination (no surface, active not
a card, surface not a column) it never calls `onUpdateBoard` — and the
card-over-column publish is `moveCard` appending to the end of the new
column: on a well-formed board, dragging `c1` (located in column `A`)
over column `B ≠ A` publishes the board with `c1` appended once at the
end of `B`; repeating the same drag-over on the published board
publishes nothing (the card's column now *is* `B`), dropping on `B` at
drag-end without crossing any card publishes nothing either, and `c1`'s
id occurs exactly once on the published board. -/
theorem dragOver_card_over_column_idempotent :
    (∀ (now : Nat) (b : Board) (ev : DragEvent),
      (ev.over = none ∨ (∀ cc, ev.active.data ≠ some (.card cc)) ∨
        (∀ ov, ev.over = some ov → ∀ col, ov.data ≠ some (.column col))) →
      ∀ b', handleDragOver now b ev ≠ some (some b')) ∧
    (∀ (now : Nat) (b : Board) (aid A B : String) (cDrag c₀ cF : Card)
      (colA colB colP : Column) (i : Nat),
      b.slotsOK = true → (Board.cardIds b).Nodup → ¬A = B →
      findCardById b cDrag.id = some (some (cF, A)) →
      jsFindP b.columns (fun col => col.id = A) = some (some colA) →
      jsFindP b.columns (fun col => col.id = B) = some (some colB) →
      jsFindIndexP colA.cards (fun cc => cc.id = cDrag.id) = some ((i : Nat) : Int) →
      colA.cards[i]? = some (some c₀) →
      (∀ cc, some cc ∈ colB.cards → ¬cc.id = cDrag.id) →
      ∃ b₁ colB',
        handleDragOver now b (mkOverColumnEvent aid cDrag B colP) = some (some b₁) ∧
        moveCard now b cDrag.id A B none = some b₁ ∧
        jsFindP b₁.columns (fun col => col.id = B) = some (some colB') ∧
        colB'.cards = colB.cards ++ [some { c₀ with updatedAt := some now }] ∧
        (∀ now₂ : Nat,
          handleDragOver now₂ b₁ (mkOverColumnEvent aid cDrag B colP) = some none) ∧
        (∀ now₃ : Nat,
          (handleDragEnd now₃ b₁ (mkOverColumnEvent aid cDrag B colP)).2 = some none) ∧
        (Board.cardIds b₁).count cDrag.id = 1) := by
  constructor
  · intro now b ev h b'
    rcases ev with ⟨⟨aid, adata⟩, over⟩
    cases over with
    | none => simp [handleDragOver]
    | some ov =>
      rcases ov with ⟨oid, odata⟩
      cases adata with
      | none => simp [handleDragOver]
      | some pl =>
        cases pl with
        | column col => simp [handleDragOver]
        | card cc =>
          rcases h with h | h | h
          · simp at h
          · exact (h cc rfl).elim
          · cases odata with
            | none => simp [handleDragOver]
            | some opl =>
              cases opl with
              | card c2 => simp [handleDragOver]
              | column col2 => exact ((h ⟨oid, some (.column col2)⟩ rfl col2) rfl).elim
  · intro now b aid A B cDrag c₀ cF colA colB colP i hOK hNodup hAB hLoc hFindA hFindB
      hidx hget hNotInB
    have hc₀id : c₀.id = cDrag.id := by
      obtain ⟨n, hn, a, hgA, hpa⟩ := jsFindIndexP_spec hidx (by omega)
      obtain rfl : n = i := by omega
      rw [hget] at hgA
      obtain rfl : a = c₀ := by
        have h2 := Option.some_inj.mp hgA
        exact (Option.some_inj.mp h2).symm
      simpa using hpa
    have hb₁ := moveCard_eq_of_found now none hFindA hFindB hidx hget
    have hFindB₁ := @moveCard_find_target b A B colA colB i c₀ now none hFindA hFindB
    rw [if_neg (fun h => hAB h.symm)] at hFindB₁
    have hSmem : some colA ∈ b.columns := jsFindP_mem_of_some_some hFindA
    have hOK₁ : colsSlotsOK (movedColumns now b.columns A B colA.cards i c₀ none) = true :=
      movedColumns_slotsOK now none hOK hSmem
    have hnodup₁ :
        (colsCardIds (movedColumns now b.columns A B colA.cards i c₀ none)).Nodup :=
      ((moveCard_some_ids hb₁).1).nodup_iff.mpr hNodup
    have hBdef : colB.cards.all (fun c => c.isSome) = true := by
      obtain ⟨col', heq, hc⟩ :=
        colsSlotsOK_mem hOK (some colB) (jsFindP_mem_of_some_some hFindB)
      cases heq
      exact hc
    have hinB' : jsFindP (insertUpd now c₀ none colB).cards
        (fun cc => cc.id = cDrag.id) = some (some { c₀ with updatedAt := some now }) := by
      show jsFindP (colB.cards ++ [some { c₀ with updatedAt := some now }]) _ = _
      rw [jsFindP_append_no_match ?pre]
      · simp only [jsFindP]
        rw [if_pos (by simp [hc₀id])]
      case pre =>
        intro s hs
        cases s with
        | none => exact absurd ((List.all_eq_true.mp hBdef) _ hs) (by simp)
        | some bb => exact ⟨bb, rfl, by simp [hNotInB bb hs]⟩
    have hmemB' : some (insertUpd now c₀ none colB) ∈
        movedColumns now b.columns A B colA.cards i c₀ none :=
      jsFindP_mem_of_some_some hFindB₁
    have hfc₁ : findCardInCols (movedColumns now b.columns A B colA.cards i c₀ none)
        cDrag.id = some (some ({ c₀ with updatedAt := some now },
          (insertUpd now c₀ none colB).id)) :=
      findCardInCols_eq_of_mem_nodup hOK₁ hnodup₁ hmemB' hinB'
    have hBid : (insertUpd now c₀ none colB).id = B := by
      simpa using (jsFindP_some_some hFindB).1
    have hpub : handleDragOver now b (mkOverColumnEvent aid cDrag B colP) =
        some (some { b with
          columns := movedColumns now b.columns A B colA.cards i c₀ none }) := by
      unfold handleDragOver mkOverColumnEvent
      dsimp only
      rw [hLoc]
      dsimp only
      rw [if_pos hAB, hb₁]
      rfl
    refine ⟨{ b with columns := movedColumns now b.columns A B colA.cards i c₀ none },
      insertUpd now c₀ none colB, hpub, hb₁, hFindB₁, rfl, ?_, ?_, ?_⟩
    · intro now₂
      unfold handleDragOver mkOverColumnEvent
      dsimp only
      rw [show findCardById { b with
          columns := movedColumns now b.columns A B colA.cards i c₀ none } cDrag.id =
        some (some ({ c₀ with updatedAt := some now },
          (insertUpd now c₀ none colB).id)) from hfc₁]
      dsimp only
      rw [if_neg (by rw [hBid]; exact fun h => h rfl)]
    · intro now₃
      show handleDragEndPublish now₃
        { b with columns := movedColumns now b.columns A B colA.cards i c₀ none }
        (mkOverColumnEvent aid cDrag B colP) = some none
      unfold handleDragEndPublish mkOverColumnEvent
      dsimp only
      rw [show findCardById { b with
          columns := movedColumns now b.columns A B colA.cards i c₀ none } cDrag.id =
        some (some ({ c₀ with updatedAt := some now },
          (insertUpd now c₀ none colB).id)) from hfc₁]
      dsimp only
      rw [hBid]
      rw [show findColumnById { b with
          columns := movedColumns now b.columns A B colA.cards i c₀ none } B =
        some (some (insertUpd now c₀ none colB)) from hFindB₁]
      dsimp only
      rw [if_neg (fun h => h rfl)]
    · apply List.count_eq_one_of_mem hnodup₁
      apply mem_colsCardIds_of_mem hmemB'
      show cDrag.id ∈ cardSlotIds (colB.cards ++ [some { c₀ with updatedAt := some now }])
      rw [cardSlotIds_append]
      simp [cardSlotIds, hc₀id]

/-- Witness for C8: dragging `c1` from column `A` over column `B` on
the concrete board `bAB`, at clock `7`. -/
theorem dragOver_card_over_column_idempotent_witness :
    ∃ b₁ colB',
      handleDragOver 7 bAB (mkOverColumnEvent "c1" (sampleCard "c1") "B" colB1) =
        some (some b₁) ∧
      moveCard 7 bAB (sampleCard "c1").id "A" "B" none = some b₁ ∧
      jsFindP b₁.columns (fun col => col.id = "B") = some (some colB') ∧
      colB'.cards = colB1.cards ++ [some { sampleCard "c1" with updatedAt := some 7 }] ∧
      (∀ now₂ : Nat,
        handleDragOver now₂ b₁ (mkOverColumnEvent "c1" (sampleCard "c1") "B" colB1) =
          some none) ∧
      (∀ now₃ : Nat,
        (handleDragEnd now₃ b₁ (mkOverColumnEvent "c1" (sampleCard "c1") "B" colB1)).2 =
          some none) ∧
      (Board.cardIds b₁).count (sampleCard "c1").id = 1 :=
  dragOver_card_over_column_idempotent.2 7 bAB "c1" "A" "B" (sampleCard "c1")
    (sampleCard "c1") (sampleCard "c1") colA3 colB1 colB1 0 (by decide) (by decide)
    (by decide) (by decide) (by decide) (by decide) (by decide) (by decide)
    (by
      intro cc hc
      simp only [colB1, List.mem_cons, List.not_mem_nil, or_false, Option.some.injEq] at hc
      subst hc
      decide)
